import Mathlib

/-!
# Rotating ("cyclic") log files: a shallow embedding of `cyc.c`

The handle `struct cyclic` is a record, the file system is a map from file
names to contents, and every outcome of an operating-system call that the
source branches on (clock readings, allocation, `rename`, `fopen`, `setvbuf`)
is an explicit field of an environment record, so each function of `cyc.c`
is a pure function of handle, environment and file system.

Conventions of the embedding:
* the two pthread mutexes are not represented: every public function runs its
  critical section under `cyc->mutex`, so each call is one atomic step;
* `unsigned` is 32 bits wide and `time_t`/`long` 64 bits (LP64); the only
  arithmetic that wraps in the source, `nbackups - 2` and `i--` on `unsigned`,
  is written out with its wrap modulo `2 ^ 32 = 4294967296`;
* a byte of a C string is a `Char`; file contents are `List Char`;
* the handle is the only actor on its files.
-/

namespace Cyc

/-! ## Constants of `cyc.c` and `limits.h` -/

/-- Size of the line buffer of `cyc_printf` (`#define CYCLIC_LINEBUF 1024`). -/
def CYCLIC_LINEBUF : Nat := 1024

/-- Type tag of a size-rotated handle (`1<<0`). -/
def CYC_FILESIZE : Int := 1

/-- Type tag of a time-rotated handle (`1<<1`). -/
def CYC_PERIODIC : Int := 2

/-- Largest `unsigned` value. -/
def UINT_MAX : Nat := 4294967295

/-- Largest `int` value. -/
def INT_MAX : Int := 2147483647

/-- Smallest `int` value. -/
def INT_MIN : Int := -2147483648

/-! ## Data model -/

/-- An open stdio stream: the name it was opened on and its write position,
which is what `ftell` reports. -/
structure FILE where
  name : String
  pos : Nat
deriving DecidableEq

/-- The handle `struct cyclic` without its two mutexes.  `pfx` is the field
`prefix`, `file = none` is the `NULL` stream. -/
structure cyclic where
  type : Int
  pfx : String
  nbackups : Nat
  maxsize : Nat
  period : Nat
  period_start : Int
  file : Option FILE
  flock : Bool
deriving DecidableEq

/-- The file system as seen through file names: `none` when no file of that
name exists, otherwise the bytes of the file. -/
abbrev Files := String → Option (List Char)

/-- The file system without any file. -/
def Files.empty : Files := fun _ => none

/-- Outcomes of the operating-system calls made during one call of
`cyc_printf`.  `time_check` is the value of `time(NULL)` read in
`cyc_check_open_file`, `time_open` the one read in `cyc_open_periodic`;
`malloc_fname` tells whether the allocation of `fname` succeeds,
`malloc_fnew i` the allocation of `fnew` in the loop iteration with index `i`,
`rename_ok i` whether the `rename` of that iteration succeeds; `fputs_ret` is
the non-negative value the C library returns from a successful `fputs`
(the C standard leaves it open; glibc returns 1). -/
structure Env where
  time_check : Int
  time_open : Int
  malloc_fname : Bool
  malloc_fnew : Nat → Bool
  rename_ok : Nat → Bool
  fopen_ok : Bool
  setvbuf_ok : Bool
  fputs_ret : Nat

/-- The environment of a call made at clock reading `t` in which every
operating-system call succeeds, with glibc's `fputs`. -/
def Env.calm (t : Int) : Env :=
  { time_check := t, time_open := t, malloc_fname := true,
    malloc_fnew := fun _ => true, rename_ok := fun _ => true,
    fopen_ok := true, setvbuf_ok := true, fputs_ret := 1 }

/-- Outcomes of the resource acquisitions of a constructor: `malloc` of the
handle, `strdup` of the prefix, and the two `pthread_mutex_init` calls. -/
structure InitEnv where
  malloc_ok : Bool
  strdup_ok : Bool
  lock_init_ok : Bool
  mutex_init_ok : Bool

/-- Broken-down time, the fields of `struct tm` that `cyc.c` reads. -/
structure tm where
  tm_sec : Int
  tm_min : Int
  tm_hour : Int
  tm_mday : Int
  tm_mon : Int
  tm_year : Int
deriving DecidableEq

/-! ## C library functions used by `cyc.c` -/

/-- Year, month (1 to 12) and day of the month of the day with number `days`
counted from 1 January 1970, in the proleptic Gregorian calendar.  The day
number is split into a 400-year era, the year of the era counted from 1 March,
and the day of that year. -/
def civil_from_days (days : Int) : Int × Int × Int :=
  let z := days + 719468
  let era := z / 146097
  let doe := z % 146097
  let yoe := (doe - doe / 1460 + doe / 36524 - doe / 146096) / 365
  let doy := doe - (365 * yoe + yoe / 4 - yoe / 100)
  let mp := (5 * doy + 2) / 153
  let d := doy - (153 * mp + 2) / 5 + 1
  let m := if mp < 10 then mp + 3 else mp - 9
  (yoe + era * 400 + (if m ≤ 2 then 1 else 0), m, d)

/-- The C library's `gmtime_r`: seconds since the Epoch to broken-down UTC
time (days of 86400 seconds, no leap seconds).  It fails when the year does
not fit `tm_year`. -/
def gmtime_r (t : Int) : Option tm :=
  let c := civil_from_days (t / 86400)
  let rem := t % 86400
  if c.1 - 1900 < INT_MIN ∨ INT_MAX < c.1 - 1900 then none
  else some { tm_sec := rem % 60, tm_min := rem / 60 % 60, tm_hour := rem / 3600,
              tm_mday := c.2.2, tm_mon := c.2.1 - 1, tm_year := c.1 - 1900 }

/-- Left-pads a digit string with zeros up to width `w`. -/
def zero_pad (w : Nat) (s : String) : String :=
  String.mk (List.replicate (w - s.length) '0') ++ s

/-- The conversion `%0<w>d` of `sprintf`: decimal, zero-padded to at least `w`
characters, the sign counted in the width. -/
def fmt_d (w : Nat) (n : Int) : String :=
  if n < 0 then "-" ++ zero_pad (w - 1) (Nat.repr n.natAbs)
  else zero_pad w (Nat.repr n.toNat)

/-- The conversion `%u` of `sprintf`. -/
def fmt_u (n : Nat) : String := Nat.repr n

/-- The call `access(name, F_OK) == 0`: the file exists. -/
def access_ok (fs : Files) (name : String) : Bool := (fs name).isSome

/-- A successful `rename(old, new)` of an existing file: the contents move to
`new`, replacing what was there, and `old` no longer exists. -/
def rename (fs : Files) (old new : String) : Files :=
  match fs old with
  | none => fs
  | some c => Function.update (Function.update fs old none) new (some c)

/-- A successful `fopen(name, "w")`: the file is created or truncated. -/
def fopen_w (fs : Files) (name : String) : Files :=
  Function.update fs name (some [])

/-- The line that `vsnprintf(line, CYCLIC_LINEBUF, fmt, ap)` followed by
`fputs(line, ...)` emits for the formatted text `msg`: at most
`CYCLIC_LINEBUF - 1` bytes, and nothing from the first NUL byte on. -/
def vsnprintf (msg : List Char) : List Char :=
  (msg.take (CYCLIC_LINEBUF - 1)).takeWhile (fun c => c != Char.ofNat 0)

/-- The calls `fputs(line, f); fflush(f)`: the bytes are appended to the file
the stream is open on (nothing becomes visible under that name when the file
no longer exists). -/
def fputs (line : List Char) (f : FILE) (fs : Files) : Files :=
  match fs f.name with
  | none => fs
  | some c => Function.update fs f.name (some (c ++ line))

/-! ## The functions of `cyc.c` -/

/-- The constructor `cyc_init_periodic(prefix, period)`; `none` is the `NULL`
result. -/
def cyc_init_periodic (ie : InitEnv) (pfx : String) (period : Nat) : Option cyclic :=
  if period = 0 then none
  else if !ie.malloc_ok then none
  else if !ie.strdup_ok then none
  else if !ie.lock_init_ok then none
  else if !ie.mutex_init_ok then none
  else some { type := CYC_PERIODIC, pfx := pfx, nbackups := UINT_MAX, maxsize := UINT_MAX,
              period := period, period_start := 0, file := none, flock := false }

/-- The constructor `cyc_init_filesize(prefix, nbackups, maxsize)`. -/
def cyc_init_filesize (ie : InitEnv) (pfx : String) (nbackups maxsize : Nat) : Option cyclic :=
  if maxsize = 0 then none
  else if !ie.malloc_ok then none
  else if !ie.strdup_ok then none
  else if !ie.lock_init_ok then none
  else if !ie.mutex_init_ok then none
  else some { type := CYC_FILESIZE, pfx := pfx, nbackups := nbackups, maxsize := maxsize,
              period := UINT_MAX, period_start := -1, file := none, flock := false }

/-- The function `cyc_file_lock`: under the mutex, `cyc->flock = 1`. -/
def cyc_file_lock (cyc : cyclic) : cyclic := { cyc with flock := true }

/-- The function `cyc_file_unlock`: under the mutex, `cyc->flock = 0`. -/
def cyc_file_unlock (cyc : cyclic) : cyclic := { cyc with flock := false }

/-- The name `sprintf(fname, "%s.%u", cyc->prefix, i)` builds. -/
def backup_name (pfx : String) (i : Nat) : String := pfx ++ "." ++ fmt_u i

/-- The name `cyc_open_periodic` builds with
`sprintf(fname, "%s.%04d%02d%02d%02d%02d%02d", ...)`. -/
def periodic_name (pfx : String) (t : tm) : String :=
  pfx ++ "." ++ fmt_d 4 (t.tm_year + 1900) ++ fmt_d 2 (t.tm_mon + 1) ++ fmt_d 2 t.tm_mday
    ++ fmt_d 2 t.tm_hour ++ fmt_d 2 t.tm_min ++ fmt_d 2 t.tm_sec

/-- Subtraction `a - b` of two `unsigned` values: the result modulo `2 ^ 32`,
which is `a + 2 ^ 32 - b` when `b` exceeds `a`. -/
def usub (a b : Nat) : Nat := if b ≤ a then a - b else a + 4294967296 - b

/-- One iteration of the loop of `cyc_open_filesize` at index `i`.  The
boolean is `false` when the iteration leaves through `goto out_fname`. -/
def shift_step (pfx : String) (e : Env) (i : Nat) (fs : Files) : Files × Bool :=
  if !access_ok fs (backup_name pfx i) then (fs, true)
  else if !e.malloc_fnew i then (fs, false)
  else if e.rename_ok i then
    (rename fs (backup_name pfx i) (backup_name pfx ((i + 1) % 4294967296)), true)
  else (fs, true)

/-- The loop `for(i = ...; i != UINT_MAX; i--)` of `cyc_open_filesize`, entered
at an index `i` other than `UINT_MAX`: the iterations `i`, `i - 1`, ..., `0`,
after which `i--` wraps to `UINT_MAX`. -/
def shift_loop (pfx : String) (e : Env) : Nat → Files → Files × Bool
  | 0, fs => shift_step pfx e 0 fs
  | i + 1, fs =>
    match shift_step pfx e (i + 1) fs with
    | (fs1, false) => (fs1, false)
    | (fs1, true) => shift_loop pfx e i fs1

/-- The whole loop `for(i = cyc->nbackups - 2; i != UINT_MAX; i--)` of
`cyc_open_filesize`; the subtraction is the one of `unsigned`. -/
def shift_files (pfx : String) (nbackups : Nat) (e : Env) (fs : Files) : Files × Bool :=
  let i0 := usub nbackups 2
  if i0 = UINT_MAX then (fs, true) else shift_loop pfx e i0 fs

/-- The function `cyc_open_filesize`; the last component is its return value. -/
def cyc_open_filesize (cyc : cyclic) (e : Env) (fs : Files) : cyclic × Files × Int :=
  let cyc := { cyc with file := none }
  if !e.malloc_fname then (cyc, fs, 0)
  else
    let r := shift_files cyc.pfx cyc.nbackups e fs
    if !r.2 then (cyc, r.1, 0)
    else if !e.fopen_ok then (cyc, r.1, 0)
    else
      let fname := cyc.pfx ++ ".0"
      let cyc := { cyc with file := some { name := fname, pos := 0 } }
      if !e.setvbuf_ok then (cyc, fopen_w r.1 fname, 0)
      else (cyc, fopen_w r.1 fname, 1)

/-- The function `cyc_open_periodic`.  The division of `time_t` by the period
is C's truncating division. -/
def cyc_open_periodic (cyc : cyclic) (e : Env) (fs : Files) : cyclic × Files × Int :=
  let cyc := { cyc with file := none }
  let cyc := { cyc with period_start := Int.tdiv e.time_open cyc.period * cyc.period }
  match gmtime_r cyc.period_start with
  | none => (cyc, fs, 0)
  | some t =>
    if !e.malloc_fname then (cyc, fs, 0)
    else
      let fname := periodic_name cyc.pfx t
      if !e.fopen_ok then (cyc, fs, 0)
      else ({ cyc with file := some { name := fname, pos := 0 } }, fopen_w fs fname, 1)

/-- The function `cyc_check_open_file`. -/
def cyc_check_open_file (cyc : cyclic) (e : Env) (fs : Files) : cyclic × Files × Int :=
  if cyc.flock && cyc.file.isSome then (cyc, fs, 1)
  else if cyc.type = CYC_PERIODIC then
    if cyc.file.isNone || decide (e.time_check - cyc.period_start > cyc.period) then
      cyc_open_periodic cyc e fs
    else (cyc, fs, 1)
  else if cyc.type = CYC_FILESIZE then
    match cyc.file with
    | none => cyc_open_filesize cyc e fs
    | some f => if f.pos > cyc.maxsize then cyc_open_filesize cyc e fs else (cyc, fs, 1)
  else (cyc, fs, 0)

/-- The function `cyc_vprintf` applied to the formatted text `msg`; the last
component is the returned `cnt`.  The check returns a non-zero value only with
a stream (`cyc_check_open_file_stream`), so the branch without a stream, where
the C code would hand `NULL` to `fputs`, is never taken. -/
def cyc_vprintf (cyc : cyclic) (e : Env) (fs : Files) (msg : List Char) :
    cyclic × Files × Int :=
  let r := cyc_check_open_file cyc e fs
  if r.2.2 ≠ 0 then
    match r.1.file with
    | none => (r.1, r.2.1, e.fputs_ret)
    | some f =>
      let line := vsnprintf msg
      ({ r.1 with file := some { f with pos := f.pos + line.length } },
        fputs line f r.2.1, e.fputs_ret)
  else (r.1, r.2.1, 0)

/-- The function `cyc_printf`, whose body is that of `cyc_vprintf`. -/
def cyc_printf (cyc : cyclic) (e : Env) (fs : Files) (msg : List Char) :
    cyclic × Files × Int :=
  let r := cyc_check_open_file cyc e fs
  if r.2.2 ≠ 0 then
    match r.1.file with
    | none => (r.1, r.2.1, e.fputs_ret)
    | some f =>
      let line := vsnprintf msg
      ({ r.1 with file := some { f with pos := f.pos + line.length } },
        fputs line f r.2.1, e.fputs_ret)
  else (r.1, r.2.1, 0)

/-! ## Vocabulary of the statements and sample inputs -/

/-- Value of a decimal digit string read left to right, starting from `acc`. -/
def decimal_value (acc : Nat) (l : List Char) : Nat :=
  l.foldl (fun a c => 10 * a + (c.toNat - 48)) acc

/-- A size-rotated handle whose stream, when there is one, is open on
`prefix.0`: the state of every handle made by `cyc_init_filesize` and used
through `cyc_printf`. -/
def cyclic.wf_filesize (cyc : cyclic) : Prop :=
  cyc.type = CYC_FILESIZE ∧ ∀ f, cyc.file = some f → f.name = backup_name cyc.pfx 0

/-- The constructor environment in which every acquisition succeeds. -/
def InitEnv.calm : InitEnv :=
  { malloc_ok := true, strdup_ok := true, lock_init_ok := true, mutex_init_ok := true }

/-- The handle `cyc_init_filesize("log", 3, 10)` returns. -/
def demo_filesize : cyclic :=
  { type := CYC_FILESIZE, pfx := "log", nbackups := 3, maxsize := 10, period := UINT_MAX,
    period_start := -1, file := none, flock := false }

/-- The handle `cyc_init_filesize("log", 0, 10)` returns. -/
def demo_zero : cyclic :=
  { type := CYC_FILESIZE, pfx := "log", nbackups := 0, maxsize := 10, period := UINT_MAX,
    period_start := -1, file := none, flock := false }

/-- The handle `cyc_init_periodic("log", 60)` returns. -/
def demo_periodic : cyclic :=
  { type := CYC_PERIODIC, pfx := "log", nbackups := UINT_MAX, maxsize := UINT_MAX, period := 60,
    period_start := 0, file := none, flock := false }

/-- A message of six bytes. -/
def six_a : List Char := "aaaaaa".toList

/-- Another message of six bytes. -/
def six_b : List Char := "bbbbbb".toList

/-- First write of the size scenario: six bytes on the new handle. -/
def demo_run1 : cyclic × Files × Int :=
  cyc_printf demo_filesize (Env.calm 0) Files.empty six_a

/-- Second write of the size scenario: six more bytes. -/
def demo_run2 : cyclic × Files × Int :=
  cyc_printf demo_run1.1 (Env.calm 0) demo_run1.2.1 six_b

/-- Third write of the size scenario. -/
def demo_run3 : cyclic × Files × Int :=
  cyc_printf demo_run2.1 (Env.calm 0) demo_run2.2.1 six_a

/-- The part of a time-rotated file name after the dot: year, month, day,
hour, minute and second as `cyc_open_periodic` prints them. -/
def time_stamp (t : tm) : String :=
  fmt_d 4 (t.tm_year + 1900) ++ fmt_d 2 (t.tm_mon + 1) ++ fmt_d 2 t.tm_mday
    ++ fmt_d 2 t.tm_hour ++ fmt_d 2 t.tm_min ++ fmt_d 2 t.tm_sec

/-- Day number, counted from 1 January 1970, of a year, a month and a day of
the month of the proleptic Gregorian calendar: the inverse of
`civil_from_days`. -/
def days_from_civil (c : Int × Int × Int) : Int :=
  let y := c.1 - (if c.2.1 ≤ 2 then 1 else 0)
  let era := y / 400
  let yoe := y % 400
  let mp := if c.2.1 ≤ 2 then c.2.1 + 9 else c.2.1 - 3
  let doy := (153 * mp + 2) / 5 + c.2.2 - 1
  let doe := 365 * yoe + yoe / 4 - yoe / 100 + doy
  era * 146097 + doe - 719468

/-- Broken-down time whose month, day, hour, minute and second are in their
calendar ranges, as in every result of `gmtime_r`. -/
def tm.in_range (t : tm) : Prop :=
  0 ≤ t.tm_mon ∧ t.tm_mon ≤ 11 ∧ 1 ≤ t.tm_mday ∧ t.tm_mday ≤ 31 ∧
  0 ≤ t.tm_hour ∧ t.tm_hour ≤ 23 ∧ 0 ≤ t.tm_min ∧ t.tm_min ≤ 59 ∧
  0 ≤ t.tm_sec ∧ t.tm_sec ≤ 59

/-- A time-rotated handle whose stream, when there is one, is open on the file
named after `period_start`: the state of every handle made by
`cyc_init_periodic` and used through `cyc_printf`. -/
def cyclic.wf_periodic (cyc : cyclic) : Prop :=
  cyc.type = CYC_PERIODIC ∧
  ∀ f, cyc.file = some f →
    ∃ t, gmtime_r cyc.period_start = some t ∧ f.name = periodic_name cyc.pfx t

/-- First write of the time scenario: period 60, clock reading 90. -/
def demo_time1 : cyclic × Files × Int :=
  cyc_printf demo_periodic (Env.calm 90) Files.empty six_a

/-- Second write of the time scenario, at clock reading 145. -/
def demo_time2 : cyclic × Files × Int :=
  cyc_printf demo_time1.1 (Env.calm 145) demo_time1.2.1 six_b

/-- Boundary scenario, period 60: a first write at clock reading 0. -/
def demo_edge1 : cyclic × Files × Int :=
  cyc_printf demo_periodic (Env.calm 0) Files.empty six_a

/-- Boundary scenario: the next write, at clock reading 60. -/
def demo_edge2 : cyclic × Files × Int :=
  cyc_printf demo_edge1.1 (Env.calm 60) demo_edge1.2.1 six_b

/-- Boundary scenario: the write after that, at clock reading 61. -/
def demo_edge3 : cyclic × Files × Int :=
  cyc_printf demo_edge2.1 (Env.calm 61) demo_edge2.2.1 six_a

/-- A directory holding `log.0`, `log.1` and `log.2`. -/
def demo_files : Files := fun g =>
  if g = "log.0" then some "zero".toList
  else if g = "log.1" then some "one".toList
  else if g = "log.2" then some "two".toList
  else none

/-! ## File names: `%u` is injective -/

theorem digitChar_value (k : Nat) (h : k < 10) : (Nat.digitChar k).toNat - 48 = k := by
  interval_cases k <;> decide

theorem decimal_value_toDigitsCore (fuel : Nat) :
    ∀ (n : Nat) (ds : List Char), n < fuel →
      decimal_value 0 (Nat.toDigitsCore 10 fuel n ds) = decimal_value n ds := by
  induction fuel with
  | zero => intro n ds h; omega
  | succ fuel ih =>
    intro n ds h
    unfold Nat.toDigitsCore
    by_cases h0 : n / 10 = 0
    · simp only [h0, if_true]
      have hn : n % 10 = n := by omega
      have hd := digitChar_value (n % 10) (by omega)
      rw [hn] at hd
      simp [decimal_value, hn, hd]
    · simp only [h0, if_false]
      rw [ih (n / 10) _ (by omega)]
      simp only [decimal_value, List.foldl_cons, digitChar_value (n % 10) (by omega)]
      congr 1
      omega

theorem decimal_value_repr (n : Nat) : decimal_value 0 (Nat.repr n).data = n := by
  simp only [Nat.repr, Nat.toDigits, List.asString]
  exact decimal_value_toDigitsCore (n + 1) n [] (by omega)

theorem repr_injective {i j : Nat} (h : Nat.repr i = Nat.repr j) : i = j := by
  have := congrArg (fun s => decimal_value 0 s.data) h
  simpa [decimal_value_repr] using this

theorem append_left_cancel_str {p a b : String} (h : p ++ a = p ++ b) : a = b := by
  have := congrArg String.data h
  simp only [String.data_append] at this
  exact String.ext (List.append_cancel_left this)

/-- Distinct indices give distinct backup names. -/
theorem backup_name_inj {pfx : String} {i j : Nat}
    (h : backup_name pfx i = backup_name pfx j) : i = j := by
  unfold backup_name fmt_u at h
  exact repr_injective (append_left_cancel_str h)

theorem backup_name_ne {pfx : String} {i j : Nat} (h : i ≠ j) :
    backup_name pfx i ≠ backup_name pfx j := fun he => h (backup_name_inj he)

/-- The name `"%s.0"` that `cyc_open_filesize` opens is the backup name of
index 0. -/
theorem backup_name_zero (pfx : String) : backup_name pfx 0 = pfx ++ ".0" := by
  unfold backup_name fmt_u
  rw [String.append_assoc]
  rfl

/-! ## The file-system primitives -/

theorem rename_new (fs : Files) (old new : String) :
    rename fs old new new = (fs old).orElse (fun _ => fs new) := by
  unfold rename
  cases h : fs old <;> simp

theorem rename_old (fs : Files) {old new : String} (h : old ≠ new) :
    rename fs old new old = none := by
  unfold rename
  cases h1 : fs old
  · simpa using h1
  · simp [Function.update_noteq h]

theorem rename_other (fs : Files) {old new g : String} (h1 : g ≠ old) (h2 : g ≠ new) :
    rename fs old new g = fs g := by
  unfold rename
  cases h : fs old
  · rfl
  · simp [Function.update_noteq h1, Function.update_noteq h2]

/-- Renaming moves contents around and creates none. -/
theorem rename_contents (fs : Files) (old new g : String) (c : List Char)
    (h : rename fs old new g = some c) : ∃ g0, fs g0 = some c := by
  by_cases h2 : g = new
  · subst h2
    rw [rename_new] at h
    cases h1 : fs old
    · rw [h1] at h
      exact ⟨g, by simpa using h⟩
    · rw [h1] at h
      exact ⟨old, by rw [h1]; simpa using h⟩
  · by_cases h1 : g = old
    · subst h1
      rw [rename_old fs h2] at h
      cases h
    · rw [rename_other fs h1 h2] at h
      exact ⟨g, h⟩

/-! ## The backup-shifting loop -/

/-- An iteration leaves the file system alone or performs its rename. -/
theorem shift_step_cases (pfx : String) (e : Env) (i : Nat) (fs : Files) :
    (shift_step pfx e i fs).1 = fs ∨
      (shift_step pfx e i fs).1 =
        rename fs (backup_name pfx i) (backup_name pfx ((i + 1) % 4294967296)) := by
  unfold shift_step
  split
  · exact Or.inl rfl
  · split
    · exact Or.inl rfl
    · split
      · exact Or.inr rfl
      · exact Or.inl rfl

/-- When allocation and `rename` succeed, an iteration is exactly a rename
(which does nothing when the source file does not exist). -/
theorem shift_step_ok (pfx : String) (e : Env) (i : Nat) (fs : Files)
    (hm : ∀ k, e.malloc_fnew k = true) (hr : ∀ k, e.rename_ok k = true) (hi : i + 1 < 4294967296) :
    shift_step pfx e i fs =
      (rename fs (backup_name pfx i) (backup_name pfx (i + 1)), true) := by
  unfold shift_step access_ok
  rw [Nat.mod_eq_of_lt hi]
  cases h : fs (backup_name pfx i)
  · simp [rename, h]
  · simp [hm, hr]

theorem shift_loop_succ (pfx : String) (e : Env) (i : Nat) (fs : Files) :
    shift_loop pfx e (i + 1) fs =
      if (shift_step pfx e (i + 1) fs).2 = true
      then shift_loop pfx e i (shift_step pfx e (i + 1) fs).1
      else ((shift_step pfx e (i + 1) fs).1, false) := by
  rw [shift_loop]
  rcases h : shift_step pfx e (i + 1) fs with ⟨fs1, b⟩
  cases b <;> simp

/-- The loop entered at index `i` touches only the names of index at most
`i + 1`, whatever the environment does. -/
theorem shift_loop_other (pfx : String) (e : Env) (i : Nat) :
    ∀ (fs : Files) (g : String), i + 1 < 4294967296 →
      (∀ k, k ≤ i + 1 → g ≠ backup_name pfx k) → (shift_loop pfx e i fs).1 g = fs g := by
  induction i with
  | zero =>
    intro fs g _ hg
    rw [shift_loop]
    rcases shift_step_cases pfx e 0 fs with h | h
    · rw [h]
    · rw [h]
      exact rename_other fs (hg 0 (by omega)) (hg 1 (by omega))
  | succ i ih =>
    intro fs g hi hg
    have hstep : (shift_step pfx e (i + 1) fs).1 g = fs g := by
      rcases shift_step_cases pfx e (i + 1) fs with h | h
      · rw [h]
      · rw [h, Nat.mod_eq_of_lt hi]
        exact rename_other fs (hg (i + 1) (by omega)) (hg (i + 1 + 1) (by omega))
    rw [shift_loop_succ]
    split
    · rw [ih _ g (by omega) (fun k hk => hg k (by omega))]
      exact hstep
    · exact hstep

/-- The loop moves file contents around and creates none, whatever the
environment does. -/
theorem shift_loop_contents (pfx : String) (e : Env) (i : Nat) :
    ∀ (fs : Files) (g : String) (c : List Char),
      (shift_loop pfx e i fs).1 g = some c → ∃ g0, fs g0 = some c := by
  have hstep : ∀ (k : Nat) (fs : Files) (g : String) (c : List Char),
      (shift_step pfx e k fs).1 g = some c → ∃ g0, fs g0 = some c := by
    intro k fs g c h
    rcases shift_step_cases pfx e k fs with h1 | h1
    · rw [h1] at h
      exact ⟨g, h⟩
    · rw [h1] at h
      exact rename_contents fs _ _ g c h
  induction i with
  | zero =>
    intro fs g c h
    rw [shift_loop] at h
    exact hstep 0 fs g c h
  | succ i ih =>
    intro fs g c h
    rw [shift_loop_succ] at h
    split at h
    · obtain ⟨g1, h1⟩ := ih _ g c h
      exact hstep (i + 1) fs g1 c h1
    · exact hstep (i + 1) fs g c h

/-- When allocation and `rename` succeed the loop runs to its end, leaves no
file of index 0, moves the former file of each index `k < i` to index `k + 1`,
and puts at index `i + 1` the former file of index `i` if there was one. -/
theorem shift_loop_ok (pfx : String) (e : Env)
    (hm : ∀ k, e.malloc_fnew k = true) (hr : ∀ k, e.rename_ok k = true) (i : Nat) :
    ∀ (fs : Files), i + 1 < 4294967296 →
      (shift_loop pfx e i fs).2 = true ∧
      (shift_loop pfx e i fs).1 (backup_name pfx 0) = none ∧
      (∀ k, k < i → (shift_loop pfx e i fs).1 (backup_name pfx (k + 1)) =
        fs (backup_name pfx k)) ∧
      (shift_loop pfx e i fs).1 (backup_name pfx (i + 1)) =
        (fs (backup_name pfx i)).orElse (fun _ => fs (backup_name pfx (i + 1))) := by
  induction i with
  | zero =>
    intro fs hi
    rw [shift_loop, shift_step_ok pfx e 0 fs hm hr hi]
    refine ⟨rfl, ?_, ?_, ?_⟩
    · exact rename_old fs (backup_name_ne (by omega))
    · intro k hk
      omega
    · exact rename_new fs _ _
  | succ i ih =>
    intro fs hi
    rw [shift_loop_succ, shift_step_ok pfx e (i + 1) fs hm hr hi]
    simp only [if_true]
    obtain ⟨h1, h2, h3, h4⟩ :=
      ih (rename fs (backup_name pfx (i + 1)) (backup_name pfx (i + 1 + 1))) (by omega)
    refine ⟨h1, h2, ?_, ?_⟩
    · intro k hk
      by_cases hki : k < i
      · rw [h3 k hki]
        exact rename_other fs (backup_name_ne (by omega)) (backup_name_ne (by omega))
      · have hk' : k = i := by omega
        subst hk'
        rw [h4, rename_old fs (backup_name_ne (by omega)),
          rename_other fs (backup_name_ne (by omega)) (backup_name_ne (by omega))]
        cases fs (backup_name pfx k) <;> rfl
    · rw [shift_loop_other pfx e i _ _ (by omega)
        (fun k hk => backup_name_ne (by omega))]
      exact rename_new fs _ _

/-! ## `cyc_open_filesize` -/

/-- The function `usub` is subtraction modulo `2 ^ 32` on `unsigned` values. -/
theorem usub_eq_mod (a b : Nat) (ha : a < 4294967296) (hb : b < 4294967296) :
    usub a b = (a + 4294967296 - b) % 4294967296 := by
  unfold usub
  split <;> omega

theorem start_index (n : Nat) (h2 : 2 ≤ n) (hU : n ≤ UINT_MAX) :
    usub n 2 = n - 2 ∧ n - 2 ≠ UINT_MAX ∧ n - 2 + 1 < 4294967296 := by
  unfold UINT_MAX at *
  unfold usub
  rw [if_pos h2]
  omega

/-- The rotation changes no field of the handle but the stream, which ends up
absent or freshly open on `prefix.0`. -/
theorem cyc_open_filesize_handle (cyc : cyclic) (e : Env) (fs : Files) :
    (cyc_open_filesize cyc e fs).1 = { cyc with file := none } ∨
      (cyc_open_filesize cyc e fs).1 =
        { cyc with file := some { name := backup_name cyc.pfx 0, pos := 0 } } := by
  unfold cyc_open_filesize
  simp only [backup_name_zero]
  split_ifs <;> simp

theorem start_index_one (n : Nat) (h1 : 1 ≤ n) (h : usub n 2 ≠ UINT_MAX) : 2 ≤ n := by
  by_contra h2
  have h3 : n = 1 := by omega
  subst h3
  exact h (by decide)

/-- For at least two backups the loop runs from index `nbackups - 2`. -/
theorem shift_files_two (pfx : String) (n : Nat) (e : Env) (fs : Files)
    (h2 : 2 ≤ n) (hU : n ≤ UINT_MAX) :
    shift_files pfx n e fs = shift_loop pfx e (n - 2) fs := by
  obtain ⟨h3, h4, _⟩ := start_index n h2 hU
  unfold shift_files
  simp only [h3, h4, if_false]

/-- With at least one backup configured the loop leaves every name outside
`prefix.0 ... prefix.(nbackups - 1)` as it was. -/
theorem shift_files_other (pfx : String) (n : Nat) (e : Env) (fs : Files) (g : String)
    (hN : 1 ≤ n) (hU : n ≤ UINT_MAX) (hg : ∀ k, k < n → g ≠ backup_name pfx k) :
    (shift_files pfx n e fs).1 g = fs g := by
  by_cases h : usub n 2 = UINT_MAX
  · unfold shift_files
    simp only [h, if_true]
  · have h2 : 2 ≤ n := start_index_one n hN h
    obtain ⟨_, _, h5⟩ := start_index n h2 hU
    rw [shift_files_two pfx n e fs h2 hU]
    exact shift_loop_other pfx e _ fs g h5 (fun k hk => hg k (by omega))

/-- The loop moves file contents around and creates none. -/
theorem shift_files_contents (pfx : String) (n : Nat) (e : Env) (fs : Files) (g : String)
    (c : List Char) (h : (shift_files pfx n e fs).1 g = some c) : ∃ g0, fs g0 = some c := by
  unfold shift_files at h
  simp only [] at h
  split at h
  · exact ⟨g, h⟩
  · exact shift_loop_contents pfx e _ fs g c h

/-- With at least one backup configured, the rotation leaves every name
outside `prefix.0 ... prefix.(nbackups - 1)` as it was. -/
theorem cyc_open_filesize_other (cyc : cyclic) (e : Env) (fs : Files) (g : String)
    (hN : 1 ≤ cyc.nbackups) (hU : cyc.nbackups ≤ UINT_MAX)
    (hg : ∀ k, k < cyc.nbackups → g ≠ backup_name cyc.pfx k) :
    (cyc_open_filesize cyc e fs).2.1 g = fs g := by
  have h0 : g ≠ cyc.pfx ++ ".0" := by
    rw [← backup_name_zero]
    exact hg 0 (by omega)
  have hloop := shift_files_other cyc.pfx cyc.nbackups e fs g hN hU hg
  have hopen : fopen_w (shift_files cyc.pfx cyc.nbackups e fs).1 (cyc.pfx ++ ".0") g = fs g := by
    rw [fopen_w, Function.update_noteq h0]
    exact hloop
  unfold cyc_open_filesize
  simp only []
  split_ifs
  · rfl
  · exact hloop
  · exact hloop
  · exact hopen
  · exact hopen

/-- The rotation when every allocation, every `rename` and the `fopen`
succeed, for at least two backups. -/
theorem cyc_open_filesize_ok (cyc : cyclic) (e : Env) (fs : Files)
    (hN : 2 ≤ cyc.nbackups) (hU : cyc.nbackups ≤ UINT_MAX)
    (hmf : e.malloc_fname = true) (hm : ∀ k, e.malloc_fnew k = true)
    (hr : ∀ k, e.rename_ok k = true) (ho : e.fopen_ok = true) :
    cyc_open_filesize cyc e fs =
      ({ cyc with file := some { name := backup_name cyc.pfx 0, pos := 0 } },
        fopen_w (shift_loop cyc.pfx e (cyc.nbackups - 2) fs).1 (backup_name cyc.pfx 0),
        if e.setvbuf_ok = true then 1 else 0) := by
  obtain ⟨_, _, h5⟩ := start_index cyc.nbackups hN hU
  have hl := (shift_loop_ok cyc.pfx e hm hr (cyc.nbackups - 2) fs h5).1
  unfold cyc_open_filesize
  simp only [shift_files_two cyc.pfx cyc.nbackups e fs hN hU, hmf, ho, hl, backup_name_zero,
    Bool.not_true]
  cases e.setvbuf_ok <;> simp

/-! ## Writing -/

theorem fputs_other (line : List Char) (f : FILE) (fs : Files) {g : String}
    (h : g ≠ f.name) : fputs line f fs g = fs g := by
  unfold fputs
  cases fs f.name
  · rfl
  · simp [Function.update_noteq h]

theorem fputs_same (line : List Char) (f : FILE) (fs : Files) (c : List Char)
    (h : fs f.name = some c) : fputs line f fs f.name = some (c ++ line) := by
  unfold fputs
  rw [h]
  simp

theorem fputs_isSome (line : List Char) (f : FILE) (fs : Files) (g : String) :
    (fputs line f fs g).isSome = (fs g).isSome := by
  by_cases h : g = f.name
  · subst h
    cases hc : fs f.name
    · simp [fputs, hc]
    · rw [fputs_same line f fs _ hc]
      rfl
  · rw [fputs_other line f fs h]

/-- A text shorter than the line buffer and free of NUL bytes is emitted
whole. -/
theorem vsnprintf_short (msg : List Char) (hl : msg.length < CYCLIC_LINEBUF)
    (h0 : ∀ c ∈ msg, c ≠ Char.ofNat 0) : vsnprintf msg = msg := by
  unfold vsnprintf
  rw [List.take_of_length_le (by unfold CYCLIC_LINEBUF at *; omega)]
  rw [List.takeWhile_eq_self_iff]
  intro c hc
  simpa using h0 c hc

/-- The function `cyc_printf` is `cyc_vprintf` on the formatted text. -/
theorem cyc_printf_eq_vprintf (cyc : cyclic) (e : Env) (fs : Files) (msg : List Char) :
    cyc_printf cyc e fs msg = cyc_vprintf cyc e fs msg := rfl

/-- A write whose rotation check ends with a stream `f` and the value 1. -/
theorem cyc_printf_of_check (cyc c1 : cyclic) (e : Env) (fs fs1 : Files) (msg : List Char)
    (f : FILE) (h : cyc_check_open_file cyc e fs = (c1, fs1, 1)) (hf : c1.file = some f) :
    cyc_printf cyc e fs msg =
      ({ c1 with file := some { f with pos := f.pos + (vsnprintf msg).length } },
        fputs (vsnprintf msg) f fs1, (e.fputs_ret : Int)) := by
  unfold cyc_printf
  simp only [h, hf]
  simp

/-- A write whose rotation check ends with the value 0. -/
theorem cyc_printf_of_check_zero (cyc c1 : cyclic) (e : Env) (fs fs1 : Files)
    (msg : List Char) (h : cyc_check_open_file cyc e fs = (c1, fs1, 0)) :
    cyc_printf cyc e fs msg = (c1, fs1, 0) := by
  unfold cyc_printf
  simp only [h]
  simp

/-! ## The rotation check and the write, case by case -/

theorem shift_step_completes (pfx : String) (e : Env) (i : Nat) (fs : Files)
    (hm : ∀ k, e.malloc_fnew k = true) : (shift_step pfx e i fs).2 = true := by
  unfold shift_step
  split_ifs <;> simp_all

theorem shift_loop_completes (pfx : String) (e : Env) (hm : ∀ k, e.malloc_fnew k = true)
    (i : Nat) : ∀ fs : Files, (shift_loop pfx e i fs).2 = true := by
  induction i with
  | zero =>
    intro fs
    rw [shift_loop]
    exact shift_step_completes pfx e 0 fs hm
  | succ i ih =>
    intro fs
    rw [shift_loop_succ, if_pos (shift_step_completes pfx e (i + 1) fs hm)]
    exact ih _

/-- When the allocations of `fnew` succeed the loop runs to its end. -/
theorem shift_files_completes (pfx : String) (n : Nat) (e : Env) (fs : Files)
    (hm : ∀ k, e.malloc_fnew k = true) : (shift_files pfx n e fs).2 = true := by
  unfold shift_files
  simp only []
  split
  · rfl
  · exact shift_loop_completes pfx e hm _ fs

/-- The rotation when the allocations and the `fopen` succeed. -/
theorem cyc_open_filesize_success (cyc : cyclic) (e : Env) (fs : Files)
    (hmf : e.malloc_fname = true) (hm : ∀ k, e.malloc_fnew k = true)
    (ho : e.fopen_ok = true) :
    cyc_open_filesize cyc e fs =
      ({ cyc with file := some { name := backup_name cyc.pfx 0, pos := 0 } },
        fopen_w (shift_files cyc.pfx cyc.nbackups e fs).1 (backup_name cyc.pfx 0),
        if e.setvbuf_ok = true then 1 else 0) := by
  have hl := shift_files_completes cyc.pfx cyc.nbackups e fs hm
  unfold cyc_open_filesize
  simp only [hmf, ho, hl, backup_name_zero, Bool.not_true]
  cases e.setvbuf_ok <;> simp

/-- The rotation when the `fopen` fails: no stream, return value 0, and the
files are those the loop left. -/
theorem cyc_open_filesize_fopen_fails (cyc : cyclic) (e : Env) (fs : Files)
    (ho : e.fopen_ok = false) :
    (cyc_open_filesize cyc e fs).1 = { cyc with file := none } ∧
    (cyc_open_filesize cyc e fs).2.2 = 0 ∧
    ((cyc_open_filesize cyc e fs).2.1 = fs ∨
      (cyc_open_filesize cyc e fs).2.1 = (shift_files cyc.pfx cyc.nbackups e fs).1) := by
  unfold cyc_open_filesize
  simp only [ho]
  split_ifs <;> simp_all

/-- The time rotation when the `fopen` fails: no stream, return value 0, no
file touched. -/
theorem cyc_open_periodic_fopen_fails (cyc : cyclic) (e : Env) (fs : Files)
    (ho : e.fopen_ok = false) :
    (cyc_open_periodic cyc e fs).1 =
      { cyc with file := none,
                 period_start := Int.tdiv e.time_open cyc.period * cyc.period } ∧
    (cyc_open_periodic cyc e fs).2.2 = 0 ∧ (cyc_open_periodic cyc e fs).2.1 = fs := by
  unfold cyc_open_periodic
  simp only []
  split
  · exact ⟨rfl, rfl, rfl⟩
  · cases e.malloc_fname <;> simp [ho]

theorem type_tags_ne : CYC_FILESIZE ≠ CYC_PERIODIC := by decide

/-- The rotation check of a size-rotated handle. -/
theorem cyc_check_filesize (cyc : cyclic) (e : Env) (fs : Files)
    (ht : cyc.type = CYC_FILESIZE) :
    cyc_check_open_file cyc e fs =
      if (cyc.flock && cyc.file.isSome) = true then (cyc, fs, 1)
      else match cyc.file with
        | none => cyc_open_filesize cyc e fs
        | some f => if f.pos > cyc.maxsize then cyc_open_filesize cyc e fs else (cyc, fs, 1) := by
  unfold cyc_check_open_file
  simp only [ht, type_tags_ne, if_false, if_true]

/-- The rotation check of a size-rotated handle without a stream rotates. -/
theorem cyc_check_filesize_none (cyc : cyclic) (e : Env) (fs : Files)
    (ht : cyc.type = CYC_FILESIZE) (hf : cyc.file = none) :
    cyc_check_open_file cyc e fs = cyc_open_filesize cyc e fs := by
  rw [cyc_check_filesize cyc e fs ht]
  simp [hf]

/-- The rotation check of a time-rotated handle. -/
theorem cyc_check_periodic (cyc : cyclic) (e : Env) (fs : Files)
    (ht : cyc.type = CYC_PERIODIC) :
    cyc_check_open_file cyc e fs =
      if (cyc.flock && cyc.file.isSome) = true then (cyc, fs, 1)
      else if (cyc.file.isNone ||
          decide (e.time_check - cyc.period_start > cyc.period)) = true then
        cyc_open_periodic cyc e fs
      else (cyc, fs, 1) := by
  unfold cyc_check_open_file
  simp only [ht, if_true]

/-- The check of a frozen handle with a stream does nothing. -/
theorem cyc_check_frozen (cyc : cyclic) (e : Env) (fs : Files) (f : FILE)
    (hl : cyc.flock = true) (hf : cyc.file = some f) :
    cyc_check_open_file cyc e fs = (cyc, fs, 1) := by
  unfold cyc_check_open_file
  simp [hl, hf]

/-- The two shapes of a write: nothing is appended and the handle is the one
the check left, or the line goes to the stream the check left. -/
theorem cyc_printf_shape (cyc : cyclic) (e : Env) (fs : Files) (msg : List Char) :
    ((cyc_printf cyc e fs msg).1 = (cyc_check_open_file cyc e fs).1 ∧
      (cyc_printf cyc e fs msg).2.1 = (cyc_check_open_file cyc e fs).2.1) ∨
    ∃ f, (cyc_check_open_file cyc e fs).1.file = some f ∧
      (cyc_printf cyc e fs msg).1 =
        { (cyc_check_open_file cyc e fs).1 with
          file := some { f with pos := f.pos + (vsnprintf msg).length } } ∧
      (cyc_printf cyc e fs msg).2.1 =
        fputs (vsnprintf msg) f (cyc_check_open_file cyc e fs).2.1 := by
  unfold cyc_printf
  simp only []
  split_ifs
  · cases hf : (cyc_check_open_file cyc e fs).1.file
    · exact Or.inl ⟨rfl, rfl⟩
    · exact Or.inr ⟨_, rfl, rfl, rfl⟩
  · exact Or.inl ⟨rfl, rfl⟩

/-! ## The constructors -/

/-- C10: when allocation and lock initialisation succeed, `cyc_init_periodic`
returns no handle exactly when `period == 0` and `cyc_init_filesize` returns
no handle exactly when `maxsize == 0`; a returned handle has the requested
kind and parameters, no open stream and `flock = 0`, so the period of a
time-rotated handle is positive. -/
theorem cyc_init_result (ie : InitEnv) (pfx : String) (period nbackups maxsize : Nat)
    (h1 : ie.malloc_ok = true) (h2 : ie.strdup_ok = true)
    (h3 : ie.lock_init_ok = true) (h4 : ie.mutex_init_ok = true) :
    (cyc_init_periodic ie pfx period = none ↔ period = 0) ∧
    (cyc_init_filesize ie pfx nbackups maxsize = none ↔ maxsize = 0) ∧
    (∀ h, cyc_init_periodic ie pfx period = some h →
      h.type = CYC_PERIODIC ∧ h.pfx = pfx ∧ h.period = period ∧ h.file = none ∧
        h.flock = false ∧ 0 < h.period) ∧
    (∀ h, cyc_init_filesize ie pfx nbackups maxsize = some h →
      h.type = CYC_FILESIZE ∧ h.pfx = pfx ∧ h.nbackups = nbackups ∧ h.maxsize = maxsize ∧
        h.file = none ∧ h.flock = false ∧ 0 < h.maxsize) := by
  unfold cyc_init_periodic cyc_init_filesize
  simp only [h1, h2, h3, h4, Bool.not_true, Bool.false_eq_true, if_false]
  refine ⟨?_, ?_, ?_, ?_⟩
  · by_cases hp : period = 0 <;> simp [hp]
  · by_cases hp : maxsize = 0 <;> simp [hp]
  · intro h hh
    by_cases hp : period = 0
    · simp [hp] at hh
    · simp only [hp, if_false, Option.some.injEq] at hh
      subst hh
      exact ⟨rfl, rfl, rfl, rfl, rfl, Nat.pos_of_ne_zero hp⟩
  · intro h hh
    by_cases hp : maxsize = 0
    · simp [hp] at hh
    · simp only [hp, if_false, Option.some.injEq] at hh
      subst hh
      exact ⟨rfl, rfl, rfl, rfl, rfl, rfl, Nat.pos_of_ne_zero hp⟩

/-- C10 at sample inputs: a zero period and a zero size are refused, the
handles of `cyc_init_periodic("log", 60)` and `cyc_init_filesize("log", 3, 10)`
are returned. -/
theorem cyc_init_result_witness :
    (cyc_init_periodic InitEnv.calm "log" 0 = none ↔ 0 = 0) ∧
    (cyc_init_filesize InitEnv.calm "log" 3 0 = none ↔ 0 = 0) ∧
    (cyc_init_periodic InitEnv.calm "log" 60 = none ↔ 60 = 0) ∧
    (cyc_init_filesize InitEnv.calm "log" 3 10 = none ↔ 10 = 0) ∧
    cyc_init_periodic InitEnv.calm "log" 60 = some demo_periodic ∧
    cyc_init_filesize InitEnv.calm "log" 3 10 = some demo_filesize :=
  ⟨(cyc_init_result InitEnv.calm "log" 0 3 0 rfl rfl rfl rfl).1,
   (cyc_init_result InitEnv.calm "log" 0 3 0 rfl rfl rfl rfl).2.1,
   (cyc_init_result InitEnv.calm "log" 60 3 10 rfl rfl rfl rfl).1,
   (cyc_init_result InitEnv.calm "log" 60 3 10 rfl rfl rfl rfl).2.1,
   by decide, by decide⟩

/-! ## Backup shifting -/

/-- C2: for every file map and every `nbackups = N >= 2`, after a rotation
`cyc_open_filesize` in which the allocations, the renames and the open succeed:
for each `k` with `1 <= k <= N-1`, if `prefix.(k-1)` existed then `prefix.k`
holds exactly its former contents; `prefix.0` is a new empty file on which the
stream is open at position 0; and when `prefix.(N-2)` existed, the former
contents of `prefix.(N-1)` are discarded: every file left is the empty
`prefix.0`, a former `prefix.k` with `k <= N-2` moved to `prefix.(k+1)`, or an
untouched file whose name is none of `prefix.0 ... prefix.(N-1)`. -/
theorem cyc_open_filesize_shifts (cyc : cyclic) (e : Env) (fs : Files)
    (hN : 2 ≤ cyc.nbackups) (hU : cyc.nbackups ≤ UINT_MAX)
    (hmf : e.malloc_fname = true) (hm : ∀ k, e.malloc_fnew k = true)
    (hr : ∀ k, e.rename_ok k = true) (ho : e.fopen_ok = true) :
    (∀ k, 1 ≤ k → k ≤ cyc.nbackups - 1 →
      (fs (backup_name cyc.pfx (k - 1))).isSome = true →
      (cyc_open_filesize cyc e fs).2.1 (backup_name cyc.pfx k) =
        fs (backup_name cyc.pfx (k - 1))) ∧
    (cyc_open_filesize cyc e fs).2.1 (backup_name cyc.pfx 0) = some [] ∧
    (cyc_open_filesize cyc e fs).1.file = some { name := backup_name cyc.pfx 0, pos := 0 } ∧
    ((fs (backup_name cyc.pfx (cyc.nbackups - 2))).isSome = true →
      ∀ g c, (cyc_open_filesize cyc e fs).2.1 g = some c →
        (g = backup_name cyc.pfx 0 ∧ c = []) ∨
        (∃ k, k + 1 < cyc.nbackups ∧ g = backup_name cyc.pfx (k + 1) ∧
          fs (backup_name cyc.pfx k) = some c) ∨
        ((∀ k, k < cyc.nbackups → g ≠ backup_name cyc.pfx k) ∧ fs g = some c)) := by
  obtain ⟨_, _, h5⟩ := start_index cyc.nbackups hN hU
  obtain ⟨_, _, hk, hlast⟩ := shift_loop_ok cyc.pfx e hm hr (cyc.nbackups - 2) fs h5
  have hother := shift_loop_other cyc.pfx e (cyc.nbackups - 2) fs
  rw [cyc_open_filesize_ok cyc e fs hN hU hmf hm hr ho]
  simp only [fopen_w]
  have hshift : ∀ j, j + 1 < cyc.nbackups → (fs (backup_name cyc.pfx j)).isSome = true →
      (shift_loop cyc.pfx e (cyc.nbackups - 2) fs).1 (backup_name cyc.pfx (j + 1)) =
        fs (backup_name cyc.pfx j) := by
    intro j hj hsome
    by_cases hlt : j < cyc.nbackups - 2
    · exact hk j hlt
    · have hj2 : j = cyc.nbackups - 2 := by omega
      subst hj2
      rw [hlast]
      cases hc : fs (backup_name cyc.pfx (cyc.nbackups - 2))
      · rw [hc] at hsome
        cases hsome
      · rfl
  refine ⟨?_, ?_, trivial, ?_⟩
  · intro k hk1 hk2 hsome
    rw [Function.update_noteq (backup_name_ne (by omega))]
    obtain ⟨j, rfl⟩ : ∃ j, k = j + 1 := ⟨k - 1, by omega⟩
    exact hshift j (by omega) hsome
  · simp
  · intro hsome g c hg
    by_cases hg0 : g = backup_name cyc.pfx 0
    · subst hg0
      simp only [Function.update_same, Option.some.injEq] at hg
      exact Or.inl ⟨rfl, hg.symm⟩
    · rw [Function.update_noteq hg0] at hg
      by_cases hin : ∃ k, k < cyc.nbackups ∧ g = backup_name cyc.pfx k
      · obtain ⟨k, hk1, rfl⟩ := hin
        have hk0 : k ≠ 0 := fun h => hg0 (by rw [h])
        obtain ⟨j, rfl⟩ : ∃ j, k = j + 1 := ⟨k - 1, by omega⟩
        refine Or.inr (Or.inl ⟨j, hk1, rfl, ?_⟩)
        by_cases hlt : j < cyc.nbackups - 2
        · rw [hk j hlt] at hg
          exact hg
        · have hj2 : j = cyc.nbackups - 2 := by omega
          subst hj2
          rw [hshift _ hk1 hsome] at hg
          exact hg
      · have hout : ∀ k, k < cyc.nbackups → g ≠ backup_name cyc.pfx k :=
          fun k hk1 he => hin ⟨k, hk1, he⟩
        rw [hother g h5 (fun k hk1 => hout k (by omega))] at hg
        exact Or.inr (Or.inr ⟨hout, hg⟩)

/-- C2 at a sample input: three backups over a directory holding `log.0`,
`log.1` and `log.2`. -/
theorem cyc_open_filesize_shifts_witness :
    (cyc_open_filesize demo_filesize (Env.calm 0) demo_files).2.1 (backup_name "log" 1) =
      demo_files (backup_name "log" (1 - 1)) ∧
    (cyc_open_filesize demo_filesize (Env.calm 0) demo_files).2.1 (backup_name "log" 2) =
      demo_files (backup_name "log" (2 - 1)) ∧
    (cyc_open_filesize demo_filesize (Env.calm 0) demo_files).2.1 (backup_name "log" 0) =
      some [] :=
  ⟨(cyc_open_filesize_shifts demo_filesize (Env.calm 0) demo_files (by decide) (by decide)
      rfl (fun _ => rfl) (fun _ => rfl) rfl).1 1 (by decide) (by decide) (by decide),
   (cyc_open_filesize_shifts demo_filesize (Env.calm 0) demo_files (by decide) (by decide)
      rfl (fun _ => rfl) (fun _ => rfl) rfl).1 2 (by decide) (by decide) (by decide),
   (cyc_open_filesize_shifts demo_filesize (Env.calm 0) demo_files (by decide) (by decide)
      rfl (fun _ => rfl) (fun _ => rfl) rfl).2.1⟩

/-! ## Which names a size-rotated handle touches -/

/-- C7 fails for `nbackups = 0`: the handle `cyc_init_filesize("log", 0, 10)`
returns has no index below `nbackups`, yet its first write creates `log.0`,
the file of index 0, and puts the message there. -/
theorem filesize_zero_backups_creates_file :
    cyc_init_filesize InitEnv.calm "log" 0 10 = some demo_zero ∧
    demo_zero.nbackups = 0 ∧
    Files.empty (backup_name "log" 0) = none ∧
    (cyc_printf demo_zero (Env.calm 0) Files.empty six_a).2.1 (backup_name "log" 0) =
      some six_a := by
  refine ⟨by decide, rfl, rfl, ?_⟩
  have hc := cyc_check_filesize_none demo_zero (Env.calm 0) Files.empty rfl rfl
  rw [cyc_open_filesize_success demo_zero (Env.calm 0) Files.empty rfl (fun _ => rfl) rfl] at hc
  rw [cyc_printf_of_check _ _ _ _ _ six_a _ hc rfl]
  have h0 : fopen_w (shift_files demo_zero.pfx demo_zero.nbackups (Env.calm 0) Files.empty).1
      (backup_name demo_zero.pfx 0) (backup_name demo_zero.pfx 0) = some [] := by
    simp [fopen_w]
  exact fputs_same (vsnprintf six_a) ⟨backup_name demo_zero.pfx 0, 0⟩ _ [] h0

/-- C7, amended to `nbackups = N >= 1`: for every well-formed size-rotated
handle and every file map, a rotation and a whole write, whatever the
operating system does, leave every file whose name is none of
`prefix.0 ... prefix.(N-1)` exactly as it was, and the handle stays
well-formed with the same prefix and `nbackups`; so the handle produces or
modifies no file of index `N` or more. -/
theorem filesize_names_bounded (cyc : cyclic) (e : Env) (fs : Files) (msg : List Char)
    (hwf : cyc.wf_filesize) (hN : 1 ≤ cyc.nbackups) (hU : cyc.nbackups ≤ UINT_MAX) :
    (∀ g, (∀ k, k < cyc.nbackups → g ≠ backup_name cyc.pfx k) →
      (cyc_open_filesize cyc e fs).2.1 g = fs g) ∧
    (∀ g, (∀ k, k < cyc.nbackups → g ≠ backup_name cyc.pfx k) →
      (cyc_printf cyc e fs msg).2.1 g = fs g) ∧
    (cyc_printf cyc e fs msg).1.wf_filesize ∧
    (cyc_printf cyc e fs msg).1.nbackups = cyc.nbackups ∧
    (cyc_printf cyc e fs msg).1.pfx = cyc.pfx := by
  have hopen := fun g hg => cyc_open_filesize_other cyc e fs g hN hU hg
  -- the state the rotation check leaves
  have hcheck : (cyc_check_open_file cyc e fs).1.wf_filesize ∧
      (cyc_check_open_file cyc e fs).1.nbackups = cyc.nbackups ∧
      (cyc_check_open_file cyc e fs).1.pfx = cyc.pfx ∧
      ∀ g, (∀ k, k < cyc.nbackups → g ≠ backup_name cyc.pfx k) →
        (cyc_check_open_file cyc e fs).2.1 g = fs g := by
    have hrot : (cyc_open_filesize cyc e fs).1.wf_filesize ∧
        (cyc_open_filesize cyc e fs).1.nbackups = cyc.nbackups ∧
        (cyc_open_filesize cyc e fs).1.pfx = cyc.pfx ∧
        ∀ g, (∀ k, k < cyc.nbackups → g ≠ backup_name cyc.pfx k) →
          (cyc_open_filesize cyc e fs).2.1 g = fs g := by
      refine ⟨?_, ?_, ?_, hopen⟩
      · rcases cyc_open_filesize_handle cyc e fs with h | h
        · rw [h]
          exact ⟨hwf.1, fun f hf => by cases hf⟩
        · rw [h]
          refine ⟨hwf.1, fun f hf => ?_⟩
          simp only [Option.some.injEq] at hf
          rw [← hf]
      · rcases cyc_open_filesize_handle cyc e fs with h | h <;> rw [h]
      · rcases cyc_open_filesize_handle cyc e fs with h | h <;> rw [h]
    have hstay : (cyc, fs, (1 : Int)).1.wf_filesize ∧
        (cyc, fs, (1 : Int)).1.nbackups = cyc.nbackups ∧
        (cyc, fs, (1 : Int)).1.pfx = cyc.pfx ∧
        ∀ g, (∀ k, k < cyc.nbackups → g ≠ backup_name cyc.pfx k) →
          (cyc, fs, (1 : Int)).2.1 g = fs g := ⟨hwf, rfl, rfl, fun _ _ => rfl⟩
    rw [cyc_check_filesize cyc e fs hwf.1]
    split_ifs
    · exact hstay
    · split
      · exact hrot
      · split_ifs
        · exact hrot
        · exact hstay
  obtain ⟨hc1, hc2, hc3, hc4⟩ := hcheck
  rcases cyc_printf_shape cyc e fs msg with ⟨h1, h2⟩ | ⟨f, hf, h1, h2⟩
  · rw [h1, h2]
    exact ⟨hopen, hc4, hc1, hc2, hc3⟩
  · have hname : f.name = backup_name cyc.pfx 0 := by
      rw [hc1.2 f hf, hc3]
    rw [h1, h2]
    refine ⟨hopen, ?_, ⟨hc1.1, ?_⟩, hc2, hc3⟩
    · intro g hg
      have hne : g ≠ f.name := by
        rw [hname]
        exact hg 0 (by omega)
      rw [fputs_other _ _ _ hne]
      exact hc4 g hg
    · intro f2 hf2
      simp only [Option.some.injEq] at hf2
      rw [← hf2]
      exact hc1.2 f hf

/-- C7 (amended) at a sample input: with three backups, the first write leaves
the name `log.5` as it was. -/
theorem filesize_names_bounded_witness :
    (cyc_printf demo_filesize (Env.calm 0) demo_files six_a).2.1 (backup_name "log" 5) =
      demo_files (backup_name "log" 5) :=
  (filesize_names_bounded demo_filesize (Env.calm 0) demo_files six_a
    ⟨rfl, fun _ hf => by cases hf⟩ (by decide) (by decide)).2.1 (backup_name "log" 5)
    (fun k hk => backup_name_ne (by have h3 : k < 3 := hk; omega))

/-! ## Size rotation and the write that crosses the threshold -/

/-- C1 fails on its own witness: with `nbackups = 3` and `maxsize = 10`, two
successive 6-byte writes on a new handle leave all 12 bytes in `log.0`, no
`log.1`, and the stream at position 12: the write that crosses the threshold
does not rotate. -/
theorem filesize_crossing_write_does_not_rotate :
    demo_run1.2.1 "log.0" = some six_a ∧
    demo_run2.2.1 "log.0" = some (six_a ++ six_b) ∧
    demo_run2.2.1 "log.1" = none ∧
    demo_run2.1.file = some { name := "log.0", pos := 12 } := by
  decide

/-- C1, amended: on a size-rotated, unfrozen handle with an open stream, when
the allocations, the `fopen` and the `setvbuf` succeed: a write that finds at
most `maxsize` bytes already written to the current file does not rotate and
appends its whole line to the current file, also when that brings the total
above `maxsize`; a write that finds more than `maxsize` bytes already written
performs exactly one rotation before its bytes are written, and afterwards the
fresh `prefix.0` holds exactly that write's line. -/
theorem cyc_printf_filesize (cyc : cyclic) (e : Env) (fs : Files) (msg : List Char) (f : FILE)
    (ht : cyc.type = CYC_FILESIZE) (hl : cyc.flock = false) (hf : cyc.file = some f)
    (hmf : e.malloc_fname = true) (hm : ∀ k, e.malloc_fnew k = true)
    (ho : e.fopen_ok = true) (hs : e.setvbuf_ok = true) :
    (f.pos ≤ cyc.maxsize →
      cyc_printf cyc e fs msg =
        ({ cyc with file := some { f with pos := f.pos + (vsnprintf msg).length } },
          fputs (vsnprintf msg) f fs, (e.fputs_ret : Int))) ∧
    (cyc.maxsize < f.pos →
      cyc_printf cyc e fs msg =
        ({ cyc with file := some { name := backup_name cyc.pfx 0,
                                   pos := (vsnprintf msg).length } },
          fputs (vsnprintf msg) { name := backup_name cyc.pfx 0, pos := 0 }
            (cyc_open_filesize cyc e fs).2.1, (e.fputs_ret : Int)) ∧
      (cyc_printf cyc e fs msg).2.1 (backup_name cyc.pfx 0) = some (vsnprintf msg)) := by
  constructor
  · intro hle
    have hc : cyc_check_open_file cyc e fs = (cyc, fs, 1) := by
      rw [cyc_check_filesize cyc e fs ht]
      simp [hl, hf, Nat.not_lt.mpr hle]
    exact cyc_printf_of_check cyc cyc e fs fs msg f hc hf
  · intro hlt
    have hc : cyc_check_open_file cyc e fs = cyc_open_filesize cyc e fs := by
      rw [cyc_check_filesize cyc e fs ht]
      simp [hl, hf, hlt]
    have hopen := cyc_open_filesize_success cyc e fs hmf hm ho
    rw [hs, if_pos rfl] at hopen
    have hp := cyc_printf_of_check cyc _ e fs _ msg
      { name := backup_name cyc.pfx 0, pos := 0 } (hc.trans hopen) rfl
    have hfs : (cyc_open_filesize cyc e fs).2.1 =
        fopen_w (shift_files cyc.pfx cyc.nbackups e fs).1 (backup_name cyc.pfx 0) := by
      rw [hopen]
    refine ⟨?_, ?_⟩
    · rw [hp, hfs]
      simp only [Nat.zero_add]
    · rw [hp]
      have h0 : fopen_w (shift_files cyc.pfx cyc.nbackups e fs).1 (backup_name cyc.pfx 0)
          (backup_name cyc.pfx 0) = some [] := by
        simp [fopen_w]
      exact fputs_same (vsnprintf msg) ⟨backup_name cyc.pfx 0, 0⟩ _ [] h0

/-- C1 (amended) on the scenario `nbackups = 3`, `maxsize = 10`: the second
6-byte write finds 6 bytes and appends to `log.0`; the third finds 12 bytes,
rotates once, and its 6 bytes are all of the fresh `log.0`, the first 12 bytes
being in `log.1`. -/
theorem cyc_printf_filesize_witness :
    cyc_printf demo_run1.1 (Env.calm 0) demo_run1.2.1 six_b =
      ({ demo_run1.1 with file := some { name := "log.0", pos := 6 + (vsnprintf six_b).length } },
        fputs (vsnprintf six_b) { name := "log.0", pos := 6 } demo_run1.2.1, ((1 : Nat) : Int)) ∧
    demo_run3.2.1 (backup_name "log" 0) = some (vsnprintf six_a) ∧
    demo_run3.2.1 "log.1" = some (six_a ++ six_b) :=
  ⟨(cyc_printf_filesize demo_run1.1 (Env.calm 0) demo_run1.2.1 six_b
      { name := "log.0", pos := 6 } (by decide) (by decide) (by decide) rfl (fun _ => rfl)
      rfl rfl).1 (by decide),
   ((cyc_printf_filesize demo_run2.1 (Env.calm 0) demo_run2.2.1 six_a
      { name := "log.0", pos := 12 } (by decide) (by decide) (by decide) rfl (fun _ => rfl)
      rfl rfl).2 (by decide)).2,
   by decide⟩

/-! ## Freezing -/

/-- C6: on a frozen handle of either kind (`flock` set, as `cyc_file_lock`
leaves it) with an open stream, whatever the clock, the write position and the
operating system, a write performs no rotation: the check returns 1 without
touching handle or files, the stream stays on the same file, `period_start`
and `flock` are unchanged, exactly the same file names exist, every file but
the stream's is unchanged, and the stream's file is its former contents
followed by the line of the write (the message, whole when it fits the line
buffer). -/
theorem cyc_printf_frozen (cyc : cyclic) (e : Env) (fs : Files) (msg : List Char) (f : FILE)
    (hl : cyc.flock = true) (hf : cyc.file = some f) :
    cyc_check_open_file cyc e fs = (cyc, fs, 1) ∧
    cyc_printf cyc e fs msg =
      ({ cyc with file := some { f with pos := f.pos + (vsnprintf msg).length } },
        fputs (vsnprintf msg) f fs, (e.fputs_ret : Int)) ∧
    (cyc_printf cyc e fs msg).1.period_start = cyc.period_start ∧
    (cyc_printf cyc e fs msg).1.flock = true ∧
    (cyc_printf cyc e fs msg).1.file.map FILE.name = some f.name ∧
    (∀ g, ((cyc_printf cyc e fs msg).2.1 g).isSome = (fs g).isSome) ∧
    (∀ g, g ≠ f.name → (cyc_printf cyc e fs msg).2.1 g = fs g) ∧
    (∀ c, fs f.name = some c →
      (cyc_printf cyc e fs msg).2.1 f.name = some (c ++ vsnprintf msg)) ∧
    (msg.length < CYCLIC_LINEBUF → (∀ c ∈ msg, c ≠ Char.ofNat 0) → vsnprintf msg = msg) := by
  have hc := cyc_check_frozen cyc e fs f hl hf
  have hp := cyc_printf_of_check cyc cyc e fs fs msg f hc hf
  refine ⟨hc, hp, ?_, ?_, ?_, ?_, ?_, ?_, vsnprintf_short msg⟩
  · rw [hp]
  · rw [hp]
    exact hl
  · rw [hp]
    rfl
  · intro g
    rw [hp]
    exact fputs_isSome _ _ _ g
  · intro g hg
    rw [hp]
    exact fputs_other _ _ _ hg
  · intro c hc2
    rw [hp]
    exact fputs_same _ _ _ c hc2

/-- C6 at a sample input: the size-rotated handle of the scenario, 12 bytes
into `log.0` with `maxsize = 10`, is frozen by `cyc_file_lock`; its next write
does not rotate and appends to `log.0`. -/
theorem cyc_printf_frozen_witness :
    cyc_check_open_file (cyc_file_lock demo_run2.1) (Env.calm 0) demo_run2.2.1 =
      (cyc_file_lock demo_run2.1, demo_run2.2.1, 1) ∧
    (cyc_printf (cyc_file_lock demo_run2.1) (Env.calm 0) demo_run2.2.1 six_a).2.1 "log.0" =
      some (six_a ++ six_b ++ vsnprintf six_a) :=
  ⟨(cyc_printf_frozen (cyc_file_lock demo_run2.1) (Env.calm 0) demo_run2.2.1 six_a
      { name := "log.0", pos := 12 } (by decide) (by decide)).1,
   (cyc_printf_frozen (cyc_file_lock demo_run2.1) (Env.calm 0) demo_run2.2.1 six_a
      { name := "log.0", pos := 12 } (by decide) (by decide)).2.2.2.2.2.2.2.1
      (six_a ++ six_b) (by decide)⟩

/-! ## Failing `fopen` -/

/-- A time-rotated handle that is not protected by the freeze and is stale
rotates. -/
theorem cyc_check_periodic_rotates (cyc : cyclic) (e : Env) (fs : Files)
    (ht : cyc.type = CYC_PERIODIC) (hfrozen : cyc.flock = false ∨ cyc.file = none)
    (hstale : cyc.file = none ∨ e.time_check - cyc.period_start > cyc.period) :
    cyc_check_open_file cyc e fs = cyc_open_periodic cyc e fs := by
  rw [cyc_check_periodic cyc e fs ht]
  have h1 : (cyc.flock && cyc.file.isSome) = false := by
    rcases hfrozen with h | h <;> simp [h]
  have h2 : (cyc.file.isNone || decide (e.time_check - cyc.period_start > cyc.period)) = true := by
    rcases hstale with h | h <;> simp [h]
  simp only [h1, h2, if_true, Bool.false_eq_true, if_false]

/-- A size-rotated handle that is not protected by the freeze and is stale
rotates. -/
theorem cyc_check_filesize_rotates (cyc : cyclic) (e : Env) (fs : Files)
    (ht : cyc.type = CYC_FILESIZE) (hfrozen : cyc.flock = false ∨ cyc.file = none)
    (hstale : cyc.file = none ∨ ∃ f, cyc.file = some f ∧ f.pos > cyc.maxsize) :
    cyc_check_open_file cyc e fs = cyc_open_filesize cyc e fs := by
  rw [cyc_check_filesize cyc e fs ht]
  have h1 : (cyc.flock && cyc.file.isSome) = false := by
    rcases hfrozen with h | h <;> simp [h]
  simp only [h1, Bool.false_eq_true, if_false]
  rcases hstale with h | ⟨f, h, hpos⟩
  · simp [h]
  · simp [h, hpos]

/-- C8: for a handle of either kind whose check rotates (no freeze protects it
and it has no stream or is stale), when the `fopen` of the rotation fails: the
handle is left without a stream, the write returns 0 and writes nothing (every
file left holds the contents of a former file; on a time-rotated handle no
file changes at all), and the rotation check of the next write calls the
rotation again. -/
theorem cyc_printf_fopen_fails (cyc : cyclic) (e : Env) (fs : Files) (msg : List Char)
    (ht : cyc.type = CYC_PERIODIC ∨ cyc.type = CYC_FILESIZE)
    (hfrozen : cyc.flock = false ∨ cyc.file = none)
    (hstale : cyc.file = none ∨
      (cyc.type = CYC_PERIODIC ∧ e.time_check - cyc.period_start > cyc.period) ∨
      (cyc.type = CYC_FILESIZE ∧ ∃ f, cyc.file = some f ∧ f.pos > cyc.maxsize))
    (ho : e.fopen_ok = false) :
    (cyc_printf cyc e fs msg).1.file = none ∧
    (cyc_printf cyc e fs msg).2.2 = 0 ∧
    (∀ g c, (cyc_printf cyc e fs msg).2.1 g = some c → ∃ g0, fs g0 = some c) ∧
    (cyc.type = CYC_PERIODIC → (cyc_printf cyc e fs msg).2.1 = fs) ∧
    (∀ e2 fs2, cyc_check_open_file (cyc_printf cyc e fs msg).1 e2 fs2 =
      if cyc.type = CYC_PERIODIC then cyc_open_periodic (cyc_printf cyc e fs msg).1 e2 fs2
      else cyc_open_filesize (cyc_printf cyc e fs msg).1 e2 fs2) := by
  rcases ht with ht | ht
  · -- time rotation
    have hst : cyc.file = none ∨ e.time_check - cyc.period_start > cyc.period := by
      rcases hstale with h | ⟨_, h⟩ | ⟨h, _⟩
      · exact Or.inl h
      · exact Or.inr h
      · rw [ht] at h
        exact absurd h.symm type_tags_ne
    obtain ⟨h1, h2, h3⟩ := cyc_open_periodic_fopen_fails cyc e fs ho
    have hc : cyc_check_open_file cyc e fs =
        ({ cyc with file := none,
                    period_start := Int.tdiv e.time_open cyc.period * cyc.period }, fs, 0) := by
      rw [cyc_check_periodic_rotates cyc e fs ht hfrozen hst]
      exact Prod.ext_iff.mpr ⟨h1, Prod.ext_iff.mpr ⟨h3, h2⟩⟩
    rw [cyc_printf_of_check_zero cyc _ e fs fs msg hc]
    refine ⟨rfl, rfl, fun g c h => ⟨g, h⟩, fun _ => rfl, fun e2 fs2 => ?_⟩
    rw [if_pos ht]
    exact cyc_check_periodic_rotates _ e2 fs2 ht (Or.inr rfl) (Or.inl rfl)
  · -- size rotation
    have hst : cyc.file = none ∨ ∃ f, cyc.file = some f ∧ f.pos > cyc.maxsize := by
      rcases hstale with h | ⟨h, _⟩ | ⟨_, h⟩
      · exact Or.inl h
      · rw [ht] at h
        exact absurd h type_tags_ne
      · exact Or.inr h
    obtain ⟨h1, h2, h3⟩ := cyc_open_filesize_fopen_fails cyc e fs ho
    have hc : cyc_check_open_file cyc e fs =
        ({ cyc with file := none }, (cyc_open_filesize cyc e fs).2.1, 0) := by
      rw [cyc_check_filesize_rotates cyc e fs ht hfrozen hst]
      exact Prod.ext_iff.mpr ⟨h1, Prod.ext_iff.mpr ⟨rfl, h2⟩⟩
    rw [cyc_printf_of_check_zero cyc _ e fs _ msg hc]
    have hne : cyc.type ≠ CYC_PERIODIC := by
      rw [ht]
      exact type_tags_ne
    refine ⟨rfl, rfl, ?_, fun h => absurd h hne, fun e2 fs2 => ?_⟩
    · intro g c hg
      rcases h3 with h3 | h3
      · exact ⟨g, by rw [← hg]; exact (congrFun h3 g).symm⟩
      · have hg2 : (shift_files cyc.pfx cyc.nbackups e fs).1 g = some c := by
          rw [← hg]
          exact (congrFun h3 g).symm
        exact shift_files_contents cyc.pfx cyc.nbackups e fs g c hg2
    · rw [if_neg hne]
      exact cyc_check_filesize_none _ e2 fs2 ht rfl

/-- C8 at sample inputs: on the new time-rotated and the new size-rotated
handle, a first write whose `fopen` fails leaves no stream and returns 0. -/
theorem cyc_printf_fopen_fails_witness :
    (cyc_printf demo_periodic { Env.calm 90 with fopen_ok := false }
      Files.empty six_a).1.file = none ∧
    (cyc_printf demo_periodic { Env.calm 90 with fopen_ok := false }
      Files.empty six_a).2.2 = 0 ∧
    (cyc_printf demo_filesize { Env.calm 0 with fopen_ok := false }
      demo_files six_a).1.file = none ∧
    (cyc_printf demo_filesize { Env.calm 0 with fopen_ok := false }
      demo_files six_a).2.2 = 0 :=
  ⟨(cyc_printf_fopen_fails demo_periodic { Env.calm 90 with fopen_ok := false }
      Files.empty six_a (Or.inl rfl) (Or.inl rfl) (Or.inl rfl) rfl).1,
   (cyc_printf_fopen_fails demo_periodic { Env.calm 90 with fopen_ok := false }
      Files.empty six_a (Or.inl rfl) (Or.inl rfl) (Or.inl rfl) rfl).2.1,
   (cyc_printf_fopen_fails demo_filesize { Env.calm 0 with fopen_ok := false }
      demo_files six_a (Or.inr rfl) (Or.inl rfl) (Or.inl rfl) rfl).1,
   (cyc_printf_fopen_fails demo_filesize { Env.calm 0 with fopen_ok := false }
      demo_files six_a (Or.inr rfl) (Or.inl rfl) (Or.inl rfl) rfl).2.1⟩

/-! ## The value `cyc_printf` returns -/

/-- The first write on a size-rotated handle without a stream, when the
allocations, the `fopen` and the `setvbuf` succeed: the line is all of the
fresh `prefix.0` and the value returned is the one `fputs` returned. -/
theorem cyc_printf_first_write (cyc : cyclic) (e : Env) (fs : Files) (msg : List Char)
    (ht : cyc.type = CYC_FILESIZE) (hf : cyc.file = none)
    (hmf : e.malloc_fname = true) (hm : ∀ k, e.malloc_fnew k = true)
    (ho : e.fopen_ok = true) (hs : e.setvbuf_ok = true) :
    (cyc_printf cyc e fs msg).2.1 (backup_name cyc.pfx 0) = some (vsnprintf msg) ∧
    (cyc_printf cyc e fs msg).2.2 = e.fputs_ret := by
  have hopen := cyc_open_filesize_success cyc e fs hmf hm ho
  rw [hs, if_pos rfl] at hopen
  have hc := (cyc_check_filesize_none cyc e fs ht hf).trans hopen
  rw [cyc_printf_of_check cyc _ e fs _ msg { name := backup_name cyc.pfx 0, pos := 0 } hc rfl]
  have h0 : fopen_w (shift_files cyc.pfx cyc.nbackups e fs).1 (backup_name cyc.pfx 0)
      (backup_name cyc.pfx 0) = some [] := by
    simp [fopen_w]
  exact ⟨fputs_same (vsnprintf msg) ⟨backup_name cyc.pfx 0, 0⟩ _ [] h0, rfl⟩

/-- C9 fails at its return value: whatever non-negative value `r` the C
library returns from a successful `fputs` (1 with glibc), the first write on
the new size-rotated handle returns `r` both for the 6-byte message, which
puts 6 bytes into `log.0`, and for the 12-byte message, which puts 12 bytes
there; `cyc_printf` and `cyc_vprintf` return the value of `fputs`, not the
number of bytes written. -/
theorem cyc_printf_returns_fputs_value (r : Nat) :
    (cyc_printf demo_filesize { Env.calm 0 with fputs_ret := r } Files.empty six_a).2.1
      (backup_name "log" 0) = some six_a ∧
    (cyc_printf demo_filesize { Env.calm 0 with fputs_ret := r } Files.empty
      (six_a ++ six_b)).2.1 (backup_name "log" 0) = some (six_a ++ six_b) ∧
    six_a.length = 6 ∧ (six_a ++ six_b).length = 12 ∧
    (cyc_printf demo_filesize { Env.calm 0 with fputs_ret := r } Files.empty six_a).2.2 = r ∧
    (cyc_printf demo_filesize { Env.calm 0 with fputs_ret := r } Files.empty
      (six_a ++ six_b)).2.2 = r ∧
    (cyc_vprintf demo_filesize { Env.calm 0 with fputs_ret := r } Files.empty six_a).2.2 = r ∧
    (cyc_printf demo_filesize (Env.calm 0) Files.empty six_a).2.2 = 1 := by
  have h6 := cyc_printf_first_write demo_filesize { Env.calm 0 with fputs_ret := r }
    Files.empty six_a rfl rfl rfl (fun _ => rfl) rfl rfl
  have h12 := cyc_printf_first_write demo_filesize { Env.calm 0 with fputs_ret := r }
    Files.empty (six_a ++ six_b) rfl rfl rfl (fun _ => rfl) rfl rfl
  have v6 : vsnprintf six_a = six_a := by decide
  have v12 : vsnprintf (six_a ++ six_b) = six_a ++ six_b := by decide
  rw [v6] at h6
  rw [v12] at h12
  exact ⟨h6.1, h12.1, by decide, by decide, h6.2, h12.2, h6.2, by decide⟩

/-- The rotation check returns a non-zero value only with a stream, so the
`fputs` of `cyc_printf` always has one. -/
theorem cyc_check_open_file_stream (cyc : cyclic) (e : Env) (fs : Files)
    (h : (cyc_check_open_file cyc e fs).2.2 ≠ 0) :
    (cyc_check_open_file cyc e fs).1.file.isSome = true := by
  have hper : (cyc_open_periodic cyc e fs).2.2 ≠ 0 →
      (cyc_open_periodic cyc e fs).1.file.isSome = true := by
    unfold cyc_open_periodic
    simp only []
    split
    · intro h1
      exact absurd rfl h1
    · split_ifs
      · intro h1
        exact absurd rfl h1
      · intro h1
        exact absurd rfl h1
      · intro _
        rfl
  have hsize : (cyc_open_filesize cyc e fs).2.2 ≠ 0 →
      (cyc_open_filesize cyc e fs).1.file.isSome = true := by
    unfold cyc_open_filesize
    simp only []
    split_ifs
    · intro h1
      exact absurd rfl h1
    · intro h1
      exact absurd rfl h1
    · intro h1
      exact absurd rfl h1
    · intro h1
      exact absurd rfl h1
    · intro _
      rfl
  unfold cyc_check_open_file at h ⊢
  split_ifs at h ⊢ with h1 h2 h3 h4
  · simp only [Bool.and_eq_true] at h1
    exact h1.2
  · exact hper h
  · simp only [Bool.or_eq_true, not_or, Option.isNone_iff_eq_none] at h3
    cases hc : cyc.file
    · exact absurd hc h3.1
    · rfl
  · cases hc : cyc.file
    · simp only [hc] at h ⊢
      exact hsize h
    · simp only [hc] at h ⊢
      split_ifs at h ⊢
      · exact hsize h
      · simp [hc]
  · exact absurd rfl h

/-! ## The calendar and the stamp of a time-rotated name -/

theorem doy_bounds (doe yoe : Int) (h0 : 0 ≤ doe) (h1 : doe ≤ 146096)
    (hy : yoe = (doe - doe / 1460 + doe / 36524 - doe / 146096) / 365) :
    0 ≤ doe - (365 * yoe + yoe / 4 - yoe / 100) ∧
    doe - (365 * yoe + yoe / 4 - yoe / 100) ≤ 365 := by
  have hd : doe / 36524 = 0 ∨ doe / 36524 = 1 ∨ doe / 36524 = 2 ∨ doe / 36524 = 3 ∨
      doe / 36524 = 4 := by omega
  have hg : yoe / 100 = 0 ∨ yoe / 100 = 1 ∨ yoe / 100 = 2 ∨ yoe / 100 = 3 := by omega
  rcases hd with hd | hd | hd | hd | hd <;> rcases hg with hg | hg | hg | hg <;> omega

theorem yoe_bounds (doe yoe : Int) (h0 : 0 ≤ doe) (h1 : doe ≤ 146096)
    (hy : yoe = (doe - doe / 1460 + doe / 36524 - doe / 146096) / 365) :
    0 ≤ yoe ∧ yoe ≤ 399 := by
  omega

theorem month_day_bounds (doy mp d : Int) (h0 : 0 ≤ doy) (h1 : doy ≤ 365)
    (hmp : mp = (5 * doy + 2) / 153) (hd : d = doy - (153 * mp + 2) / 5 + 1) :
    0 ≤ mp ∧ mp ≤ 11 ∧ 1 ≤ d ∧ d ≤ 31 := by
  omega

/-- The computation of `civil_from_days`, step by step: month and day are in
their ranges, and year, month and day determine the day number. -/
theorem civil_steps (days z era doe yoe doy mp d m y : Int)
    (hz : z = days + 719468)
    (hera : era = z / 146097) (hdoe : doe = z % 146097)
    (hyoe : yoe = (doe - doe / 1460 + doe / 36524 - doe / 146096) / 365)
    (hdoy : doy = doe - (365 * yoe + yoe / 4 - yoe / 100))
    (hmp : mp = (5 * doy + 2) / 153)
    (hd : d = doy - (153 * mp + 2) / 5 + 1)
    (hm : m = if mp < 10 then mp + 3 else mp - 9)
    (hy : y = yoe + era * 400 + (if m ≤ 2 then 1 else 0)) :
    1 ≤ m ∧ m ≤ 12 ∧ 1 ≤ d ∧ d ≤ 31 ∧
    (y - (if m ≤ 2 then 1 else 0)) / 400 * 146097 +
      (365 * ((y - (if m ≤ 2 then 1 else 0)) % 400) +
        (y - (if m ≤ 2 then 1 else 0)) % 400 / 4 -
        (y - (if m ≤ 2 then 1 else 0)) % 400 / 100 +
        ((153 * (if m ≤ 2 then m + 9 else m - 3) + 2) / 5 + d - 1)) - 719468 = days := by
  have hdoe0 : 0 ≤ doe ∧ doe ≤ 146096 := by
    rw [hdoe]
    omega
  have hyoeb := yoe_bounds doe yoe hdoe0.1 hdoe0.2 hyoe
  have hdoyb := doy_bounds doe yoe hdoe0.1 hdoe0.2 hyoe
  rw [← hdoy] at hdoyb
  obtain ⟨hmp0, hmp1, hdb⟩ := month_day_bounds doy mp d hdoyb.1 hdoyb.2 hmp hd
  have hzz : z = era * 146097 + doe := by
    rw [hera, hdoe]
    omega
  have hdd : (153 * mp + 2) / 5 + d - 1 = doy := by
    rw [hd]
    omega
  have hde : 365 * yoe + yoe / 4 - yoe / 100 + doy = doe := by
    rw [hdoy]
    omega
  clear hera hdoe hyoe hdoy hmp hd
  by_cases h10 : mp < 10
  · rw [if_pos h10] at hm
    have h2 : ¬ m ≤ 2 := by omega
    rw [if_neg h2] at hy
    simp only [if_neg h2]
    refine ⟨by omega, by omega, hdb.1, hdb.2, ?_⟩
    have hm9 : m - 3 = mp := by omega
    have he : (y - 0) / 400 = era := by omega
    have hr : (y - 0) % 400 = yoe := by omega
    rw [he, hr, hm9, hdd, hde]
    omega
  · rw [if_neg h10] at hm
    have h2 : m ≤ 2 := by omega
    rw [if_pos h2] at hy
    simp only [if_pos h2]
    refine ⟨by omega, by omega, hdb.1, hdb.2, ?_⟩
    have hm9 : m + 9 = mp := by omega
    have he : (y - 1) / 400 = era := by omega
    have hr : (y - 1) % 400 = yoe := by omega
    rw [he, hr, hm9, hdd, hde]
    omega

/-- For every day number, month and day of `civil_from_days` are in their
ranges and `days_from_civil` gives the day number back. -/
theorem civil_from_days_fields (days : Int) :
    1 ≤ (civil_from_days days).2.1 ∧ (civil_from_days days).2.1 ≤ 12 ∧
    1 ≤ (civil_from_days days).2.2 ∧ (civil_from_days days).2.2 ≤ 31 ∧
    days_from_civil (civil_from_days days) = days :=
  civil_steps days _ _ _ _ _ _ _ _ _ rfl rfl rfl rfl rfl rfl rfl rfl rfl

/-- Distinct days have distinct dates. -/
theorem civil_from_days_inj {a b : Int} (h : civil_from_days a = civil_from_days b) :
    a = b := by
  have := congrArg days_from_civil h
  rwa [(civil_from_days_fields a).2.2.2.2, (civil_from_days_fields b).2.2.2.2] at this

/-- The fields of a result of `gmtime_r`. -/
theorem gmtime_r_some (t : Int) (a : tm) (h : gmtime_r t = some a) :
    a.tm_year = (civil_from_days (t / 86400)).1 - 1900 ∧
    a.tm_mon = (civil_from_days (t / 86400)).2.1 - 1 ∧
    a.tm_mday = (civil_from_days (t / 86400)).2.2 ∧
    a.tm_hour = t % 86400 / 3600 ∧ a.tm_min = t % 86400 / 60 % 60 ∧
    a.tm_sec = t % 86400 % 60 := by
  unfold gmtime_r at h
  simp only [] at h
  split_ifs at h
  simp only [Option.some.injEq] at h
  subst h
  exact ⟨rfl, rfl, rfl, rfl, rfl, rfl⟩

/-- Every result of `gmtime_r` has its fields in their calendar ranges. -/
theorem gmtime_r_in_range (t : Int) (a : tm) (h : gmtime_r t = some a) : a.in_range := by
  obtain ⟨_, h2, h3, h4, h5, h6⟩ := gmtime_r_some t a h
  obtain ⟨c1, c2, c3, c4, _⟩ := civil_from_days_fields (t / 86400)
  unfold tm.in_range
  rw [h2, h3, h4, h5, h6]
  omega

/-- Distinct times have distinct broken-down times. -/
theorem gmtime_r_inj (t1 t2 : Int) (a : tm) (h1 : gmtime_r t1 = some a)
    (h2 : gmtime_r t2 = some a) : t1 = t2 := by
  obtain ⟨a1, a2, a3, a4, a5, a6⟩ := gmtime_r_some t1 a h1
  obtain ⟨b1, b2, b3, b4, b5, b6⟩ := gmtime_r_some t2 a h2
  have hc : civil_from_days (t1 / 86400) = civil_from_days (t2 / 86400) := by
    refine Prod.ext_iff.mpr ⟨?_, Prod.ext_iff.mpr ⟨?_, ?_⟩⟩
    · omega
    · omega
    · omega
  have hdays := civil_from_days_inj hc
  omega

/-- The calendar fields computed for a day from 1 January 1970 through
31 December 9999 lie in their calendar ranges. -/
theorem civil_bounds (days z era doe yoe doy mp d m y : Int)
    (hz : z = days + 719468)
    (hera : era = z / 146097) (hdoe : doe = z % 146097)
    (hyoe : yoe = (doe - doe / 1460 + doe / 36524 - doe / 146096) / 365)
    (hdoy : doy = doe - (365 * yoe + yoe / 4 - yoe / 100))
    (hmp : mp = (5 * doy + 2) / 153)
    (hd : d = doy - (153 * mp + 2) / 5 + 1)
    (hm : m = if mp < 10 then mp + 3 else mp - 9)
    (hy : y = yoe + era * 400 + (if m ≤ 2 then 1 else 0))
    (h0 : 0 ≤ days) (h9 : days ≤ 2932896) :
    1970 ≤ y ∧ y ≤ 9999 ∧ 1 ≤ m ∧ m ≤ 12 ∧ 1 ≤ d ∧ d ≤ 31 := by
  have hdoe0 : 0 ≤ doe ∧ doe ≤ 146096 := by omega
  have hdoyb := doy_bounds doe yoe hdoe0.1 hdoe0.2 hyoe
  rw [← hdoy] at hdoyb
  have hmpb : 0 ≤ mp ∧ mp ≤ 11 := by omega
  have hdb : 1 ≤ d ∧ d ≤ 31 := by omega
  have hcase : (mp < 10 ∧ m = mp + 3 ∧ y = yoe + era * 400) ∨
      (10 ≤ mp ∧ m = mp - 9 ∧ y = yoe + era * 400 + 1) := by
    by_cases h10 : mp < 10
    · left
      rw [if_pos h10] at hm
      have h2 : ¬ m ≤ 2 := by omega
      rw [if_neg h2] at hy
      exact ⟨h10, hm, by omega⟩
    · right
      rw [if_neg h10] at hm
      have h2 : m ≤ 2 := by omega
      rw [if_pos h2] at hy
      exact ⟨by omega, hm, hy⟩
  have hmb : 1 ≤ m ∧ m ≤ 12 := by omega
  have hyb : 1970 ≤ y ∧ y ≤ 9999 := by
    have heb : 4 ≤ era ∧ era ≤ 24 := by omega
    have hc : doe / 36524 = 0 ∨ doe / 36524 = 1 ∨ doe / 36524 = 2 ∨ doe / 36524 = 3 ∨
        doe / 36524 = 4 := by omega
    have hg : yoe / 100 = 0 ∨ yoe / 100 = 1 ∨ yoe / 100 = 2 ∨ yoe / 100 = 3 := by omega
    rcases hcase with ⟨h10, -, hy2⟩ | ⟨h10, -, hy2⟩ <;>
      rcases hc with hc | hc | hc | hc | hc <;> rcases hg with hg | hg | hg | hg <;> omega
  exact ⟨hyb.1, hyb.2, hmb.1, hmb.2, hdb.1, hdb.2⟩

theorem civil_from_days_range (days : Int) (h0 : 0 ≤ days) (h9 : days ≤ 2932896) :
    1970 ≤ (civil_from_days days).1 ∧ (civil_from_days days).1 ≤ 9999 ∧
    1 ≤ (civil_from_days days).2.1 ∧ (civil_from_days days).2.1 ≤ 12 ∧
    1 ≤ (civil_from_days days).2.2 ∧ (civil_from_days days).2.2 ≤ 31 :=
  civil_bounds days _ _ _ _ _ _ _ _ _ rfl rfl rfl rfl rfl rfl rfl rfl rfl h0 h9

/-- For a time from 1970 through 9999, `gmtime_r` succeeds and every field is
in its calendar range. -/
theorem gmtime_r_range (t : Int) (h0 : 0 ≤ t) (h9 : t < 253402300800) :
    ∃ r : tm, gmtime_r t = some r ∧
      70 ≤ r.tm_year ∧ r.tm_year ≤ 8099 ∧ 0 ≤ r.tm_mon ∧ r.tm_mon ≤ 11 ∧
      1 ≤ r.tm_mday ∧ r.tm_mday ≤ 31 ∧ 0 ≤ r.tm_hour ∧ r.tm_hour ≤ 23 ∧
      0 ≤ r.tm_min ∧ r.tm_min ≤ 59 ∧ 0 ≤ r.tm_sec ∧ r.tm_sec ≤ 59 := by
  obtain ⟨hy1, hy2, hm1, hm2, hd1, hd2⟩ :=
    civil_from_days_range (t / 86400) (by omega) (by omega)
  unfold gmtime_r
  simp only []
  generalize civil_from_days (t / 86400) = c at *
  rw [if_neg (by unfold INT_MIN INT_MAX; omega)]
  refine ⟨_, rfl, ?_⟩
  dsimp only
  omega

theorem digitChar_isDigit (k : Nat) (h : k < 10) : (Nat.digitChar k).isDigit = true := by
  interval_cases k <;> decide

theorem toDigitsCore_isDigit (fuel : Nat) :
    ∀ (n : Nat) (ds : List Char), (∀ c ∈ ds, c.isDigit = true) →
      ∀ c ∈ Nat.toDigitsCore 10 fuel n ds, c.isDigit = true := by
  induction fuel with
  | zero =>
    intro n ds h c hc
    exact h c hc
  | succ fuel ih =>
    intro n ds h
    unfold Nat.toDigitsCore
    have hd := digitChar_isDigit (n % 10) (by omega)
    have hcons : ∀ c ∈ Nat.digitChar (n % 10) :: ds, c.isDigit = true := by
      intro c hc
      rcases List.mem_cons.mp hc with rfl | hc
      · exact hd
      · exact h c hc
    by_cases h0 : n / 10 = 0
    · simp only [h0, if_true]
      exact hcons
    · simp only [h0, if_false]
      exact ih _ _ hcons

theorem repr_isDigit (n : Nat) : ∀ c ∈ (Nat.repr n).data, c.isDigit = true := by
  simp only [Nat.repr, Nat.toDigits, List.asString]
  exact toDigitsCore_isDigit (n + 1) n [] (by simp)

/-- The conversion `%0<w>d` of a non-negative number below `10 ^ w` gives
exactly `w` characters, all of them digits. -/
theorem fmt_d_digits (w : Nat) (n : Int) (hw : 0 < w) (h0 : 0 ≤ n) (h1 : n < 10 ^ w) :
    (fmt_d w n).length = w ∧ ∀ c ∈ (fmt_d w n).data, c.isDigit = true := by
  have hlt : n.toNat < 10 ^ w := by
    have h2 : (n.toNat : Int) < ((10 ^ w : Nat) : Int) := by
      rw [Int.toNat_of_nonneg h0]
      exact_mod_cast h1
    exact_mod_cast h2
  have hlen := Nat.repr_length n.toNat w hw hlt
  unfold fmt_d zero_pad
  rw [if_neg (by omega)]
  constructor
  · rw [String.length_append, String.length_mk, List.length_replicate]
    omega
  · intro c hc
    rw [String.data_append] at hc
    rcases List.mem_append.mp hc with hc | hc
    · rw [List.eq_of_mem_replicate hc]
      decide
    · exact repr_isDigit _ c hc

/-- The name of a time-rotated file is the prefix, a dot and the stamp. -/
theorem periodic_name_eq (pfx : String) (t : tm) :
    periodic_name pfx t = pfx ++ "." ++ time_stamp t := by
  unfold periodic_name time_stamp
  simp only [String.append_assoc]

/-- For calendar fields of a year from 0 through 9999 the stamp is fourteen
digits. -/
theorem time_stamp_digits (t : tm)
    (hy1 : 0 ≤ t.tm_year + 1900) (hy2 : t.tm_year + 1900 ≤ 9999)
    (hm1 : 0 ≤ t.tm_mon + 1) (hm2 : t.tm_mon + 1 ≤ 99)
    (hd1 : 0 ≤ t.tm_mday) (hd2 : t.tm_mday ≤ 99) (hh1 : 0 ≤ t.tm_hour) (hh2 : t.tm_hour ≤ 99)
    (hn1 : 0 ≤ t.tm_min) (hn2 : t.tm_min ≤ 99) (hs1 : 0 ≤ t.tm_sec) (hs2 : t.tm_sec ≤ 99) :
    (time_stamp t).length = 14 ∧ ∀ c ∈ (time_stamp t).data, c.isDigit = true := by
  obtain ⟨a1, a2⟩ := fmt_d_digits 4 (t.tm_year + 1900) (by omega) hy1 (by omega)
  obtain ⟨b1, b2⟩ := fmt_d_digits 2 (t.tm_mon + 1) (by omega) hm1 (by omega)
  obtain ⟨c1, c2⟩ := fmt_d_digits 2 t.tm_mday (by omega) hd1 (by omega)
  obtain ⟨d1, d2⟩ := fmt_d_digits 2 t.tm_hour (by omega) hh1 (by omega)
  obtain ⟨e1, e2⟩ := fmt_d_digits 2 t.tm_min (by omega) hn1 (by omega)
  obtain ⟨f1, f2⟩ := fmt_d_digits 2 t.tm_sec (by omega) hs1 (by omega)
  unfold time_stamp
  constructor
  · simp only [String.length_append, a1, b1, c1, d1, e1, f1]
  · intro c hc
    simp only [String.data_append, List.mem_append] at hc
    rcases hc with ((((hc | hc) | hc) | hc) | hc) | hc
    · exact a2 c hc
    · exact b2 c hc
    · exact c2 c hc
    · exact d2 c hc
    · exact e2 c hc
    · exact f2 c hc

theorem decimal_value_zeros (k : Nat) (l : List Char) :
    decimal_value 0 (List.replicate k '0' ++ l) = decimal_value 0 l := by
  induction k with
  | zero => rfl
  | succ k ih =>
    rw [List.replicate_succ, List.cons_append]
    exact ih

/-- Padding with zeros does not change the value of a digit string. -/
theorem zero_pad_value (w : Nat) (s : String) :
    decimal_value 0 (zero_pad w s).data = decimal_value 0 s.data := by
  unfold zero_pad
  rw [String.data_append]
  exact decimal_value_zeros _ _

/-- The digits `%0<w>d` prints for a non-negative number have its value. -/
theorem fmt_d_value (w : Nat) (n : Int) (h0 : 0 ≤ n) :
    decimal_value 0 (fmt_d w n).data = n.toNat := by
  unfold fmt_d
  rw [if_neg (by omega), zero_pad_value, decimal_value_repr]

theorem zero_pad_isDigit (w : Nat) (n : Nat) :
    ∀ c ∈ (zero_pad w (Nat.repr n)).data, c.isDigit = true := by
  intro c hc
  unfold zero_pad at hc
  rw [String.data_append] at hc
  rcases List.mem_append.mp hc with hc | hc
  · rw [List.eq_of_mem_replicate hc]
    decide
  · exact repr_isDigit _ c hc

/-- The conversion `%0<w>d` is injective. -/
theorem fmt_d_inj (w : Nat) (a b : Int) (h : fmt_d w a = fmt_d w b) : a = b := by
  have hmixed : ∀ x y : Int, x < 0 → 0 ≤ y → fmt_d w x ≠ fmt_d w y := by
    intro x y hx hy he
    have hd := congrArg String.data he
    have hmem : (Char.ofNat 45) ∈ (fmt_d w y).data := by
      rw [← hd]
      unfold fmt_d
      rw [if_pos hx, String.data_append]
      exact List.mem_append_left _ (by decide)
    have hdig : ∀ c ∈ (fmt_d w y).data, c.isDigit = true := by
      unfold fmt_d
      rw [if_neg (by omega)]
      exact zero_pad_isDigit w _
    exact absurd (hdig _ hmem) (by decide)
  by_cases ha : a < 0
  · by_cases hb : b < 0
    · unfold fmt_d at h
      rw [if_pos ha, if_pos hb] at h
      have h2 := congrArg (fun s => decimal_value 0 s.data) (append_left_cancel_str h)
      simp only [zero_pad_value, decimal_value_repr] at h2
      omega
    · exact absurd h (hmixed a b ha (by omega))
  · by_cases hb : b < 0
    · exact absurd h.symm (hmixed b a hb (by omega))
    · have h2 := congrArg (fun s => decimal_value 0 s.data) h
      simp only [fmt_d_value w a (by omega), fmt_d_value w b (by omega)] at h2
      omega

/-- Two broken-down times in calendar range with the same stamp are equal. -/
theorem time_stamp_inj (a b : tm) (ha : a.in_range) (hb : b.in_range)
    (h : time_stamp a = time_stamp b) : a = b := by
  unfold tm.in_range at ha hb
  have len2 : ∀ x : Int, 0 ≤ x → x ≤ 99 → (fmt_d 2 x).data.length = 2 := by
    intro x h0 h1
    exact (fmt_d_digits 2 x (by omega) h0 (by omega)).1
  have hd := congrArg String.data h
  unfold time_stamp at hd
  simp only [String.data_append] at hd
  obtain ⟨hd, h6⟩ := List.append_inj' hd
    ((len2 a.tm_sec (by omega) (by omega)).trans (len2 b.tm_sec (by omega) (by omega)).symm)
  obtain ⟨hd, h5⟩ := List.append_inj' hd
    ((len2 a.tm_min (by omega) (by omega)).trans (len2 b.tm_min (by omega) (by omega)).symm)
  obtain ⟨hd, h4⟩ := List.append_inj' hd
    ((len2 a.tm_hour (by omega) (by omega)).trans (len2 b.tm_hour (by omega) (by omega)).symm)
  obtain ⟨hd, h3⟩ := List.append_inj' hd
    ((len2 a.tm_mday (by omega) (by omega)).trans (len2 b.tm_mday (by omega) (by omega)).symm)
  obtain ⟨h1, h2⟩ := List.append_inj' hd
    ((len2 (a.tm_mon + 1) (by omega) (by omega)).trans
      (len2 (b.tm_mon + 1) (by omega) (by omega)).symm)
  have e1 := fmt_d_inj 4 _ _ (String.ext h1)
  have e2 := fmt_d_inj 2 _ _ (String.ext h2)
  have e3 := fmt_d_inj 2 _ _ (String.ext h3)
  have e4 := fmt_d_inj 2 _ _ (String.ext h4)
  have e5 := fmt_d_inj 2 _ _ (String.ext h5)
  have e6 := fmt_d_inj 2 _ _ (String.ext h6)
  cases a
  cases b
  simp only [tm.mk.injEq] at *
  omega

/-- Distinct times, when `gmtime_r` succeeds on both, give distinct names of
time-rotated files. -/
theorem periodic_name_inj (pfx : String) (t1 t2 : Int) (a b : tm)
    (h1 : gmtime_r t1 = some a) (h2 : gmtime_r t2 = some b)
    (h : periodic_name pfx a = periodic_name pfx b) : t1 = t2 := by
  rw [periodic_name_eq, periodic_name_eq] at h
  have hab := time_stamp_inj a b (gmtime_r_in_range t1 a h1) (gmtime_r_in_range t2 b h2)
    (append_left_cancel_str h)
  subst hab
  exact gmtime_r_inj t1 t2 a h1 h2

/-! ## Time rotation -/

/-- The time rotation when `gmtime_r`, the allocation and the `fopen`
succeed. -/
theorem cyc_open_periodic_success (cyc : cyclic) (e : Env) (fs : Files) (t : tm)
    (hg : gmtime_r (Int.tdiv e.time_open cyc.period * cyc.period) = some t)
    (hmf : e.malloc_fname = true) (ho : e.fopen_ok = true) :
    cyc_open_periodic cyc e fs =
      ({ cyc with period_start := Int.tdiv e.time_open cyc.period * cyc.period,
                  file := some { name := periodic_name cyc.pfx t, pos := 0 } },
        fopen_w fs (periodic_name cyc.pfx t), 1) := by
  unfold cyc_open_periodic
  simp only [hg, hmf, ho]
  rfl

/-- The time rotation changes the stream and `period_start` only. -/
theorem cyc_open_periodic_fields (cyc : cyclic) (e : Env) (fs : Files) :
    (cyc_open_periodic cyc e fs).1.type = cyc.type ∧
    (cyc_open_periodic cyc e fs).1.period = cyc.period ∧
    (cyc_open_periodic cyc e fs).1.period_start =
      Int.tdiv e.time_open cyc.period * cyc.period := by
  unfold cyc_open_periodic
  simp only []
  split
  · exact ⟨rfl, rfl, rfl⟩
  · split_ifs <;> exact ⟨rfl, rfl, rfl⟩

/-- C3 fails from the year 10000 on: with period 60 at clock reading
253402300800 (1 January 10000, itself a multiple of 60) the rotation opens
`log.100000101000000`, whose stamp has fifteen digits. -/
theorem periodic_name_year_10000 :
    (253402300800 : Int) / 60 * 60 = 253402300800 ∧
    (cyc_open_periodic demo_periodic (Env.calm 253402300800) Files.empty).1.file =
      some { name := "log.100000101000000", pos := 0 } ∧
    "100000101000000".length = 15 := by
  decide

/-- C3, amended to clock readings before the year 10000: for every period
`P > 0` and every clock reading `now` with `0 <= now < 253402300800`, a time
rotation whose allocation and `fopen` succeed sets
`period_start = floor(now / P) * P`, a multiple of `P` with
`period_start <= now < period_start + P`, and opens, empty and at position 0,
the file named by the prefix, a dot and the stamp of `period_start`, which is
fourteen digits: year, month, day, hour, minute, second of the UTC calendar. -/
theorem cyc_open_periodic_window (cyc : cyclic) (e : Env) (fs : Files)
    (hP : 0 < cyc.period) (h0 : 0 ≤ e.time_open) (h9 : e.time_open < 253402300800)
    (hmf : e.malloc_fname = true) (ho : e.fopen_ok = true) :
    ∃ t : tm,
      gmtime_r (e.time_open / cyc.period * cyc.period) = some t ∧
      cyc_open_periodic cyc e fs =
        ({ cyc with period_start := e.time_open / cyc.period * cyc.period,
                    file := some { name := cyc.pfx ++ "." ++ time_stamp t, pos := 0 } },
          fopen_w fs (cyc.pfx ++ "." ++ time_stamp t), 1) ∧
      ((cyc.period : Int) ∣ e.time_open / cyc.period * cyc.period) ∧
      e.time_open / cyc.period * cyc.period ≤ e.time_open ∧
      e.time_open < e.time_open / cyc.period * cyc.period + cyc.period ∧
      (time_stamp t).length = 14 ∧ (∀ c ∈ (time_stamp t).data, c.isDigit = true) := by
  have hPi : (0 : Int) < cyc.period := by exact_mod_cast hP
  have hle : e.time_open / cyc.period * cyc.period ≤ e.time_open :=
    Int.ediv_mul_le _ (ne_of_gt hPi)
  have hlt : e.time_open < e.time_open / cyc.period * cyc.period + cyc.period := by
    have h := Int.lt_ediv_add_one_mul_self e.time_open hPi
    rw [add_mul, one_mul] at h
    exact h
  have hnn : 0 ≤ e.time_open / cyc.period * cyc.period :=
    Int.mul_nonneg (Int.ediv_nonneg h0 (le_of_lt hPi)) (le_of_lt hPi)
  obtain ⟨t, ht, hy1, hy2, hm1, hm2, hd1, hd2, hh1, hh2, hn1, hn2, hs1, hs2⟩ :=
    gmtime_r_range (e.time_open / cyc.period * cyc.period) hnn (lt_of_le_of_lt hle h9)
  have htd : Int.tdiv e.time_open cyc.period = e.time_open / cyc.period :=
    Int.tdiv_eq_ediv h0 (le_of_lt hPi)
  have hopen := cyc_open_periodic_success cyc e fs t (by rw [htd]; exact ht) hmf ho
  rw [htd, periodic_name_eq] at hopen
  obtain ⟨hlen, hdig⟩ := time_stamp_digits t (by omega) (by omega) (by omega) (by omega)
    (by omega) (by omega) hh1 (by omega) hn1 (by omega) hs1 (by omega)
  exact ⟨t, ht, hopen, Dvd.intro_left _ rfl, hle, hlt, hlen, hdig⟩

/-- C3 (amended) on the scenario of period 60: the rotation at clock reading
90 sets the window start 60 and opens `log.19700101000100`; the writes at 90
and 145 land in `log.19700101000100` and `log.19700101000200`, window starts
60 and 120. -/
theorem cyc_open_periodic_window_witness :
    (cyc_open_periodic demo_periodic (Env.calm 90) Files.empty).1 =
      { demo_periodic with period_start := 60,
                           file := some { name := "log.19700101000100", pos := 0 } } ∧
    demo_time1.1.file = some { name := "log.19700101000100", pos := 6 } ∧
    demo_time1.1.period_start = 60 ∧
    demo_time2.1.file = some { name := "log.19700101000200", pos := 6 } ∧
    demo_time2.1.period_start = 120 := by
  obtain ⟨t, ht, hopen, -⟩ := cyc_open_periodic_window demo_periodic (Env.calm 90)
    Files.empty (by decide) (by decide) (by decide) rfl rfl
  have h60 : gmtime_r ((Env.calm 90).time_open / demo_periodic.period * demo_periodic.period) =
      some { tm_sec := 0, tm_min := 1, tm_hour := 0, tm_mday := 1, tm_mon := 0,
             tm_year := 70 } := by decide
  rw [h60] at ht
  cases ht
  refine ⟨?_, by decide, by decide, by decide, by decide⟩
  rw [hopen]
  decide

/-- A write on a time-rotated handle leaves a time-rotated handle with the
same period. -/
theorem cyc_printf_periodic_fields (cyc : cyclic) (e : Env) (fs : Files) (msg : List Char)
    (ht : cyc.type = CYC_PERIODIC) :
    (cyc_printf cyc e fs msg).1.type = CYC_PERIODIC ∧
    (cyc_printf cyc e fs msg).1.period = cyc.period := by
  have hc : (cyc_check_open_file cyc e fs).1.type = CYC_PERIODIC ∧
      (cyc_check_open_file cyc e fs).1.period = cyc.period := by
    obtain ⟨h1, h2, _⟩ := cyc_open_periodic_fields cyc e fs
    rw [cyc_check_periodic cyc e fs ht]
    split_ifs
    · exact ⟨ht, rfl⟩
    · exact ⟨h1.trans ht, h2⟩
    · exact ⟨ht, rfl⟩
  rcases cyc_printf_shape cyc e fs msg with ⟨h1, _⟩ | ⟨f, _, h1, _⟩
  · rw [h1]
    exact hc
  · rw [h1]
    exact hc

/-- C4 fails after a write on the window boundary: with period 60 and writes
at clock readings 0, 60 and 61, the successive writes at `t1 = 60` and
`t2 = 61` satisfy `t2 - floor(t1/60)*60 <= 60`, yet the write at 60 lands in
`log.19700101000000` with window start 0 and the write at 61 rotates to
`log.19700101000100` with window start 60. -/
theorem periodic_write_after_boundary_rotates :
    (61 : Int) - 60 / 60 * 60 ≤ 60 ∧
    demo_edge1.1.flock = false ∧
    demo_edge2.1.file = some { name := "log.19700101000000", pos := 12 } ∧
    demo_edge2.1.period_start = 0 ∧
    demo_edge3.1.file = some { name := "log.19700101000100", pos := 6 } ∧
    demo_edge3.1.period_start = 60 := by
  decide

/-- C4, amended: for two successive writes on a time-rotated handle, the first
leaving a stream `f` and the window start `W`, if the second is made at a
clock reading `t2` with `t2 - W <= period` then it does not rotate: the check
returns 1 and changes nothing, the line of the second write is appended
through the same stream to the same file, and `period_start` stays `W`.  The
window start `W` is `floor(t1 / period) * period` whenever the first write,
made at `t1 >= 0`, rotated. -/
theorem cyc_printf_same_window (cyc : cyclic) (e1 e2 : Env) (fs : Files)
    (msg1 msg2 : List Char) (f : FILE)
    (ht : cyc.type = CYC_PERIODIC)
    (hf : (cyc_printf cyc e1 fs msg1).1.file = some f)
    (hw : e2.time_check - (cyc_printf cyc e1 fs msg1).1.period_start ≤ cyc.period) :
    cyc_check_open_file (cyc_printf cyc e1 fs msg1).1 e2 (cyc_printf cyc e1 fs msg1).2.1 =
      ((cyc_printf cyc e1 fs msg1).1, (cyc_printf cyc e1 fs msg1).2.1, 1) ∧
    cyc_printf (cyc_printf cyc e1 fs msg1).1 e2 (cyc_printf cyc e1 fs msg1).2.1 msg2 =
      ({ (cyc_printf cyc e1 fs msg1).1 with
          file := some { f with pos := f.pos + (vsnprintf msg2).length } },
        fputs (vsnprintf msg2) f (cyc_printf cyc e1 fs msg1).2.1, (e2.fputs_ret : Int)) ∧
    (cyc_printf (cyc_printf cyc e1 fs msg1).1 e2
      (cyc_printf cyc e1 fs msg1).2.1 msg2).1.period_start =
        (cyc_printf cyc e1 fs msg1).1.period_start ∧
    (cyc_printf (cyc_printf cyc e1 fs msg1).1 e2
      (cyc_printf cyc e1 fs msg1).2.1 msg2).1.file.map FILE.name = some f.name ∧
    ((cyc.flock = false ∨ cyc.file = none) →
      (cyc.file = none ∨ e1.time_check - cyc.period_start > cyc.period) →
      0 ≤ e1.time_open →
      (cyc_printf cyc e1 fs msg1).1.period_start =
        e1.time_open / cyc.period * cyc.period) := by
  obtain ⟨ht1, hp1⟩ := cyc_printf_periodic_fields cyc e1 fs msg1 ht
  have hc : cyc_check_open_file (cyc_printf cyc e1 fs msg1).1 e2
      (cyc_printf cyc e1 fs msg1).2.1 =
      ((cyc_printf cyc e1 fs msg1).1, (cyc_printf cyc e1 fs msg1).2.1, 1) := by
    rw [cyc_check_periodic _ e2 _ ht1]
    have hnot : ¬ (e2.time_check - (cyc_printf cyc e1 fs msg1).1.period_start >
        (cyc_printf cyc e1 fs msg1).1.period) := by
      rw [hp1]
      omega
    simp [hf, hnot]
  have hp := cyc_printf_of_check _ _ e2 _ _ msg2 f hc hf
  refine ⟨hc, hp, ?_, ?_, ?_⟩
  · rw [hp]
  · rw [hp]
    rfl
  · intro hfrozen hstale hnn
    have hrot := cyc_check_periodic_rotates cyc e1 fs ht hfrozen hstale
    have hps : (cyc_check_open_file cyc e1 fs).1.period_start =
        e1.time_open / cyc.period * cyc.period := by
      rw [hrot, (cyc_open_periodic_fields cyc e1 fs).2.2,
        Int.tdiv_eq_ediv hnn (Int.ofNat_nonneg _)]
    rcases cyc_printf_shape cyc e1 fs msg1 with ⟨h1, _⟩ | ⟨f1, _, h1, _⟩
    · rw [h1]
      exact hps
    · rw [h1]
      exact hps

/-- C4 (amended) on scenarios of period 60: after the write at clock reading
90, which opens `log.19700101000100` with window start 60, a write at clock
reading 100 does not rotate and leaves the window start 60; and after a first
write at clock reading 0, the write at clock reading 60, where
`t2 - W = period`, does not rotate either. -/
theorem cyc_printf_same_window_witness :
    cyc_check_open_file demo_time1.1 (Env.calm 100) demo_time1.2.1 =
      (demo_time1.1, demo_time1.2.1, 1) ∧
    (cyc_printf demo_time1.1 (Env.calm 100) demo_time1.2.1 six_b).1.period_start =
      demo_time1.1.period_start ∧
    demo_time1.1.period_start = 60 ∧
    cyc_check_open_file demo_edge1.1 (Env.calm 60) demo_edge1.2.1 =
      (demo_edge1.1, demo_edge1.2.1, 1) ∧
    demo_edge2.1.file.map FILE.name = some "log.19700101000000" :=
  ⟨(cyc_printf_same_window demo_periodic (Env.calm 90) (Env.calm 100) Files.empty six_a six_b
      { name := "log.19700101000100", pos := 6 } rfl (by decide) (by decide)).1,
   (cyc_printf_same_window demo_periodic (Env.calm 90) (Env.calm 100) Files.empty six_a six_b
      { name := "log.19700101000100", pos := 6 } rfl (by decide) (by decide)).2.2.1,
   by decide,
   (cyc_printf_same_window demo_periodic (Env.calm 0) (Env.calm 60) Files.empty six_a six_b
      { name := "log.19700101000000", pos := 6 } rfl (by decide) (by decide)).1,
   (cyc_printf_same_window demo_periodic (Env.calm 0) (Env.calm 60) Files.empty six_a six_b
      { name := "log.19700101000000", pos := 6 } rfl (by decide) (by decide)).2.2.2.1⟩

/-- C5 fails on the window boundary: with period 60, after a first write at
clock reading 0 the write at clock reading 60, which lies in the next aligned
window (`floor(60/60)*60 = floor(0/60)*60 + 60`), does not rotate: it is
appended to `log.19700101000000`, the window start stays 0, and no
`log.19700101000100` is made. -/
theorem periodic_boundary_write_not_rotated :
    (60 : Int) / 60 * 60 = 0 / 60 * 60 + 60 ∧
    demo_edge1.1.flock = false ∧
    demo_edge1.1.file = some { name := "log.19700101000000", pos := 6 } ∧
    demo_edge2.1.file = some { name := "log.19700101000000", pos := 12 } ∧
    demo_edge2.1.period_start = 0 ∧
    demo_edge2.2.1 "log.19700101000000" = some (six_a ++ six_b) ∧
    demo_edge2.2.1 "log.19700101000100" = none := by
  decide

/-- The window start `cyc_open_periodic` computes is less than a period before
the clock reading. -/
theorem tdiv_window (t : Int) (p : Nat) (hp : 0 < p) : t - p < Int.tdiv t p * p := by
  have hpi : (0 : Int) < p := by exact_mod_cast hp
  have h1 := Int.tmod_add_tdiv t p
  have h2 := Int.tmod_lt_of_pos t hpi
  rw [mul_comm] at h1
  omega

/-- A time rotation leaves a well-formed handle with the same prefix and
`flock`. -/
theorem cyc_open_periodic_wf (cyc : cyclic) (e : Env) (fs : Files)
    (ht : cyc.type = CYC_PERIODIC) :
    (cyc_open_periodic cyc e fs).1.wf_periodic ∧
    (cyc_open_periodic cyc e fs).1.pfx = cyc.pfx ∧
    (cyc_open_periodic cyc e fs).1.flock = cyc.flock := by
  unfold cyc_open_periodic
  simp only []
  split
  · exact ⟨⟨ht, fun f hf => by cases hf⟩, rfl, rfl⟩
  · rename_i t hg
    split_ifs
    · exact ⟨⟨ht, fun f hf => by cases hf⟩, rfl, rfl⟩
    · exact ⟨⟨ht, fun f hf => by cases hf⟩, rfl, rfl⟩
    · refine ⟨⟨ht, fun f hf => ⟨t, hg, ?_⟩⟩, rfl, rfl⟩
      simp only [Option.some.injEq] at hf
      rw [← hf]

/-- A write on a well-formed time-rotated handle leaves a well-formed handle
with the same prefix, period and `flock`. -/
theorem cyc_printf_wf_periodic (cyc : cyclic) (e : Env) (fs : Files) (msg : List Char)
    (hwf : cyc.wf_periodic) :
    (cyc_printf cyc e fs msg).1.wf_periodic ∧
    (cyc_printf cyc e fs msg).1.pfx = cyc.pfx ∧
    (cyc_printf cyc e fs msg).1.period = cyc.period ∧
    (cyc_printf cyc e fs msg).1.flock = cyc.flock := by
  have hc : (cyc_check_open_file cyc e fs).1.wf_periodic ∧
      (cyc_check_open_file cyc e fs).1.pfx = cyc.pfx ∧
      (cyc_check_open_file cyc e fs).1.period = cyc.period ∧
      (cyc_check_open_file cyc e fs).1.flock = cyc.flock := by
    obtain ⟨h1, h2, h3⟩ := cyc_open_periodic_wf cyc e fs hwf.1
    have h4 := (cyc_open_periodic_fields cyc e fs).2.1
    rw [cyc_check_periodic cyc e fs hwf.1]
    split_ifs
    · exact ⟨hwf, rfl, rfl, rfl⟩
    · exact ⟨h1, h2, h4, h3⟩
    · exact ⟨hwf, rfl, rfl, rfl⟩
  obtain ⟨⟨hc1, hc2⟩, hc3, hc4, hc5⟩ := hc
  rcases cyc_printf_shape cyc e fs msg with ⟨h1, _⟩ | ⟨f, hf, h1, _⟩
  · rw [h1]
    exact ⟨⟨hc1, hc2⟩, hc3, hc4, hc5⟩
  · rw [h1]
    refine ⟨⟨hc1, fun f2 hf2 => ?_⟩, hc3, hc4, hc5⟩
    simp only [Option.some.injEq] at hf2
    rw [← hf2]
    exact hc2 f hf

/-- C5, amended: for two successive writes on a well-formed, unfrozen
time-rotated handle with period `P > 0`, the first leaving a stream `f` and
the window start `W`, the second made at a clock reading `t2` (the clock not
running backwards before the rotation reads it) with allocation, `gmtime_r`
and `fopen` succeeding: the second write rotates exactly when `t2 - W > P`.
When `t2 - W <= P`, which includes the first second `W + P` of the next
aligned window, the check changes nothing.  When `t2 - W > P` the check calls
the rotation, the window start grows, and the second write lands in a new file
whose name differs from the name of `f`: that file holds exactly the line of
the second write and the file of the first write is left as it was. -/
theorem cyc_printf_next_window (cyc : cyclic) (e1 e2 : Env) (fs : Files)
    (msg1 msg2 : List Char) (f : FILE)
    (hwf : cyc.wf_periodic) (hl : cyc.flock = false) (hP : 0 < cyc.period)
    (hf : (cyc_printf cyc e1 fs msg1).1.file = some f)
    (hclock : e2.time_check ≤ e2.time_open)
    (hmf : e2.malloc_fname = true) (ho : e2.fopen_ok = true)
    (hg : (gmtime_r (Int.tdiv e2.time_open cyc.period * cyc.period)).isSome = true) :
    (e2.time_check - (cyc_printf cyc e1 fs msg1).1.period_start ≤ cyc.period →
      cyc_check_open_file (cyc_printf cyc e1 fs msg1).1 e2 (cyc_printf cyc e1 fs msg1).2.1 =
        ((cyc_printf cyc e1 fs msg1).1, (cyc_printf cyc e1 fs msg1).2.1, 1)) ∧
    (e2.time_check - (cyc_printf cyc e1 fs msg1).1.period_start > cyc.period →
      cyc_check_open_file (cyc_printf cyc e1 fs msg1).1 e2 (cyc_printf cyc e1 fs msg1).2.1 =
        cyc_open_periodic (cyc_printf cyc e1 fs msg1).1 e2 (cyc_printf cyc e1 fs msg1).2.1 ∧
      (cyc_printf cyc e1 fs msg1).1.period_start <
        (cyc_printf (cyc_printf cyc e1 fs msg1).1 e2
          (cyc_printf cyc e1 fs msg1).2.1 msg2).1.period_start ∧
      ∃ f2, (cyc_printf (cyc_printf cyc e1 fs msg1).1 e2
              (cyc_printf cyc e1 fs msg1).2.1 msg2).1.file = some f2 ∧
        f2.name ≠ f.name ∧
        f2.pos = (vsnprintf msg2).length ∧
        (cyc_printf (cyc_printf cyc e1 fs msg1).1 e2
          (cyc_printf cyc e1 fs msg1).2.1 msg2).2.1 f2.name = some (vsnprintf msg2) ∧
        (cyc_printf (cyc_printf cyc e1 fs msg1).1 e2
          (cyc_printf cyc e1 fs msg1).2.1 msg2).2.1 f.name =
            (cyc_printf cyc e1 fs msg1).2.1 f.name) := by
  obtain ⟨hwf1, hpfx, hper, hfl⟩ := cyc_printf_wf_periodic cyc e1 fs msg1 hwf
  generalize cyc_printf cyc e1 fs msg1 = first at *
  constructor
  · intro hw
    have hnot : ¬ (e2.time_check - first.1.period_start > first.1.period) := by
      rw [hper]
      omega
    rw [cyc_check_periodic _ e2 _ hwf1.1]
    simp [hf, hnot]
  · intro hw
    have hrot : cyc_check_open_file first.1 e2 first.2.1 =
        cyc_open_periodic first.1 e2 first.2.1 :=
      cyc_check_periodic_rotates first.1 e2 first.2.1 hwf1.1 (Or.inl (hfl.trans hl))
        (Or.inr (by rw [hper]; exact hw))
    rw [← hper] at hg
    obtain ⟨t2, ht2⟩ := Option.isSome_iff_exists.mp hg
    have hopen := cyc_open_periodic_success first.1 e2 first.2.1 t2 ht2 hmf ho
    have hp := cyc_printf_of_check first.1 _ e2 first.2.1 _ msg2
      { name := periodic_name first.1.pfx t2, pos := 0 } (hrot.trans hopen) rfl
    have hgrow : first.1.period_start <
        Int.tdiv e2.time_open first.1.period * first.1.period := by
      have h1 := tdiv_window e2.time_open first.1.period (by rw [hper]; exact hP)
      rw [hper] at h1 ⊢
      omega
    obtain ⟨t1, ht1, hname⟩ := hwf1.2 f hf
    have hne : periodic_name first.1.pfx t2 ≠ f.name := by
      intro he
      rw [hname] at he
      have := periodic_name_inj first.1.pfx _ _ t2 t1 ht2 ht1 he
      omega
    refine ⟨hrot, ?_, ⟨⟨periodic_name first.1.pfx t2, 0 + (vsnprintf msg2).length⟩,
      ?_, hne, Nat.zero_add _, ?_, ?_⟩⟩
    · rw [hp]
      exact hgrow
    · rw [hp]
    · rw [hp]
      have h0 : fopen_w first.2.1 (periodic_name first.1.pfx t2)
          (periodic_name first.1.pfx t2) = some [] := by
        simp [fopen_w]
      exact fputs_same (vsnprintf msg2) ⟨periodic_name first.1.pfx t2, 0⟩ _ [] h0
    · rw [hp]
      have h1 : f.name ≠ periodic_name first.1.pfx t2 := fun h => hne h.symm
      show fputs (vsnprintf msg2) ⟨periodic_name first.1.pfx t2, 0⟩
        (fopen_w first.2.1 (periodic_name first.1.pfx t2)) f.name = first.2.1 f.name
      rw [fputs_other _ _ _ h1, fopen_w, Function.update_noteq h1]

/-- C5 (amended) on scenarios of period 60: after the write at clock reading
90 (window start 60) the write at clock reading 145 rotates, the window start
grows and the stream is on `log.19700101000200`; after a first write at clock
reading 0 the check of the write at clock reading 60 changes nothing. -/
theorem cyc_printf_next_window_witness :
    cyc_check_open_file demo_time1.1 (Env.calm 145) demo_time1.2.1 =
      cyc_open_periodic demo_time1.1 (Env.calm 145) demo_time1.2.1 ∧
    demo_time1.1.period_start < demo_time2.1.period_start ∧
    demo_time2.1.file = some { name := "log.19700101000200", pos := 6 } ∧
    cyc_check_open_file demo_edge1.1 (Env.calm 60) demo_edge1.2.1 =
      (demo_edge1.1, demo_edge1.2.1, 1) :=
  ⟨((cyc_printf_next_window demo_periodic (Env.calm 90) (Env.calm 145) Files.empty six_a six_b
      { name := "log.19700101000100", pos := 6 } ⟨rfl, fun _ hf => by cases hf⟩ rfl
      (by decide) (by decide) (by decide) rfl rfl (by decide)).2 (by decide)).1,
   ((cyc_printf_next_window demo_periodic (Env.calm 90) (Env.calm 145) Files.empty six_a six_b
      { name := "log.19700101000100", pos := 6 } ⟨rfl, fun _ hf => by cases hf⟩ rfl
      (by decide) (by decide) (by decide) rfl rfl (by decide)).2 (by decide)).2.1,
   by decide,
   (cyc_printf_next_window demo_periodic (Env.calm 0) (Env.calm 60) Files.empty six_a six_b
      { name := "log.19700101000000", pos := 6 } ⟨rfl, fun _ hf => by cases hf⟩ rfl
      (by decide) (by decide) (by decide) rfl rfl (by decide)).1 (by decide)⟩

end Cyc
